import Mathlib

/-!
Verification development for the `twilio-ai-agent` repository (src/app.py).

The Python source is shallowly embedded: pure helper functions become Lean
functions, the per-call mutable `state` dict of the `/relay` websocket handler
becomes an explicit `Session` record threaded through a `step` function, and
Python exceptions become an `Except` result.  The regex layer of the source is
embedded at the "which pattern matched" level: an utterance is represented by
the outcome of each regex matcher (an inductive phrase for the date/time
parsers, extractor-result fields for the controller), and the branch logic that
consumes those outcomes is translated line by line from the source.
-/

namespace TwilioAgent

/-! ### Gregorian date model

`datetime.date` of the Python standard library, restricted to what
`src/app.py` uses: construction with validity check (`date(y, m, d)` raises on
an invalid triple), comparison, and day arithmetic (`timedelta(days=n)`).
-/

/-- Leap-year rule of the proleptic Gregorian calendar (as in `datetime`). -/
def isLeap (y : Nat) : Bool :=
  (y % 4 == 0 && y % 100 != 0) || y % 400 == 0

/-- Number of days in month `m` (1-based) of year `y`. -/
def daysInMonth (y m : Nat) : Nat :=
  if m = 2 then (if isLeap y then 29 else 28)
  else if m = 4 ∨ m = 6 ∨ m = 9 ∨ m = 11 then 30
  else 31

structure Date where
  y : Nat
  m : Nat
  d : Nat
  deriving DecidableEq, Repr

/-- Validity of a `(y, m, d)` triple: `datetime.date` would accept it. -/
def Date.valid (dt : Date) : Bool :=
  1 ≤ dt.m && dt.m ≤ 12 && 1 ≤ dt.d && dt.d ≤ daysInMonth dt.y dt.m

/-- `date(year, mon, day)` wrapped in try/except: `none` when invalid. -/
def mkDate (y m d : Nat) : Option Date :=
  if (Date.mk y m d).valid then some ⟨y, m, d⟩ else none

/-- Strict comparison of dates (`<` on `datetime.date`): lexicographic. -/
def Date.ltb (a b : Date) : Bool :=
  a.y < b.y || (a.y == b.y && (a.m < b.m || (a.m == b.m && a.d < b.d)))

/-- The day after `dt` (what `timedelta(days=1)` addition does to the date). -/
def Date.next (dt : Date) : Date :=
  if dt.d < daysInMonth dt.y dt.m then ⟨dt.y, dt.m, dt.d + 1⟩
  else if dt.m < 12 then ⟨dt.y, dt.m + 1, 1⟩
  else ⟨dt.y + 1, 1, 1⟩

/-- `dt + timedelta(days=n)`. -/
def Date.addDays (dt : Date) : Nat → Date
  | 0 => dt
  | n + 1 => (dt.addDays n).next

structure Time where
  hh : Nat
  mm : Nat
  deriving DecidableEq, Repr

/-- A local datetime (`datetime.combine(date, time, tzinfo=TZ)`). -/
structure DT where
  date : Date
  time : Time
  deriving DecidableEq, Repr

/-! ### Temporal parser (src/app.py lines 169–263)

The regex cascade of `parse_date_phrase` is embedded at the phrase level: a
`DatePhrase` names the shape of the utterance, i.e. the first pattern of the
cascade that matches it (the patterns are tried in source order).  Two
source defects constrain the embedding:

* In the month-name regex (line 197) the only capturing groups are the whole
  alternation, the nested `(iembre|iembre)` of `sept(iembre|iembre)`, and the
  day digits — so the day digits are group 3, and `day = int(m.group(2))`
  (line 204), which sits before the `try`, raises an uncaught `TypeError`
  (`int(None)`) for every English month name and `ValueError`
  (`int("iembre")`) for "septiembre".  The month-name branch never returns.

* The M/D regex (two word-bounded 1-2-digit groups separated by a slash or
  hyphen, line 213) is tried before the ISO regex and matches the `MM-DD`
  tail of every `YYYY-MM-DD` string, so an
  ISO utterance is first re-parsed as M/D with current-year rollover; the ISO
  branch (line 225) sees the string only when that reading's `date(...)`
  constructions raise and fall through `except: pass`.

For bare month-day and M/D utterances a final fall-through yields `None`
(the remaining patterns cannot match those strings).
-/

/-- Reference "now": the date of `now_dt` together with `now_dt.weekday()`
(0 = Monday … 6 = Sunday, as in Python). -/
structure Now where
  date : Date
  wd : Fin 7

/-- Utterance shapes: `monthDay` is a month-name-plus-day utterance (with the
month index the name denotes and the day digits), `mdy` a bare numeric `M/D`
or `M-D` utterance, `iso` a `YYYY-MM-DD` utterance (whose `MM-DD` tail the
M/D regex also matches, with the same numeric values). -/
inductive DatePhrase where
  | inDays (n : Nat)
  | today
  | tomorrow
  | weekday (w : Fin 7)
  | monthDay (mon day : Nat)
  | mdy (mon day : Nat)
  | iso (y m d : Nat)
  | noDate
  deriving DecidableEq, Repr

/-- `_next_weekday` (src/app.py lines 174–178): `days_ahead =
(target - now_dt.weekday()) % 7`, bumped to 7 when zero, added to `now`. -/
def nextWeekday (now : Now) (target : Fin 7) : Date :=
  let daysAhead := (7 + target.val - now.wd.val) % 7
  now.date.addDays (if daysAhead = 0 then 7 else daysAhead)

/-- The outcome of the `date(...)`-building block of the M/D branch
(src/app.py lines 217–223): the current-year date, rolled to `year + 1` when
strictly before today; an invalid construction (either call) makes the
`except: pass` fall through, reported as `none`. -/
def mdRollover (mon day : Nat) (now : Now) : Option Date :=
  match mkDate now.date.y mon day with
  | some d => if d.ltb now.date then mkDate (now.date.y + 1) mon day else some d
  | none => none

/-- `parse_date_phrase` (src/app.py lines 180–232), branch logic per
utterance shape, with an `Except` result for the uncaught exception of the
month-name branch: `day = int(m.group(2))` (line 204, before the `try`) reads
the nested `(iembre|iembre)` capture group instead of the day digits (group
3) and raises for every month-name utterance.  An ISO utterance is consumed
by the earlier M/D regex on its `MM-DD` tail first; only when that rollover
reading falls through does the ISO branch return the date as written. -/
def parseDatePhrase (p : DatePhrase) (now : Now) : Except Unit (Option Date) :=
  match p with
  | .inDays n => .ok (some (now.date.addDays n))
  | .today => .ok (some now.date)
  | .tomorrow => .ok (some (now.date.addDays 1))
  | .weekday w => .ok (some (nextWeekday now w))
  | .monthDay _ _ => .error ()
  | .mdy mon day => .ok (mdRollover mon day now)
  | .iso y m d =>
      .ok (match mdRollover m d now with
           | some dd => some dd
           | none => mkDate y m d)
  | .noDate => .ok none

inductive AmPm where
  | am
  | pm
  deriving DecidableEq, Repr

/-- The time-phrase shapes recognized by `parse_time_phrase` (src/app.py lines
234–255): the "noon"/"midnight" literals, or the `(\d{1,2})(?::(\d{2}))?(am|pm)?`
regex with its captured groups, or no match. -/
inductive TimePhrase where
  | noon
  | midnight
  | hm (h : Nat) (m : Option Nat) (ap : Option AmPm)
  | noTime
  deriving DecidableEq, Repr

/-- The hour after the am/pm adjustments of src/app.py lines 247–252. -/
def interpHour (h : Nat) (ap : Option AmPm) : Nat :=
  match ap with
  | some .pm => if h ≠ 12 then h + 12 else h
  | some .am => if h = 12 then 0 else h
  | none => if h ≤ 7 then h + 12 else h

/-- `parse_time_phrase` (src/app.py lines 234–255). -/
def parseTimePhrase (p : TimePhrase) : Option Time :=
  match p with
  | .noon => some ⟨12, 0⟩
  | .midnight => some ⟨0, 0⟩
  | .noTime => none
  | .hm h m ap =>
      let minute := m.getD 0
      let hour := interpHour h ap
      if 23 < hour ∨ 59 < minute then none else some ⟨hour, minute⟩

/-! ### Name collector (src/app.py lines 337–378)

`NameCollector.tokens` is the tokenizer boundary: `observe` is embedded as a
function of the token list the regex would produce for the utterance.
-/

structure NC where
  first : Option String
  last : Option String
  repeats : Nat
  lastInput : String
  deriving DecidableEq, Repr

def NC.init : NC := ⟨none, none, 0, ""⟩

/-- `str.lower()` (character-wise ASCII lowercasing, which is what the name
tokens the source produces contain). -/
def lowerStr (s : String) : String := String.mk (s.data.map Char.toLower)

/-- `NameCollector.observe` (src/app.py lines 352–370), over the token list of
the utterance.  Returns the updated collector, the `done` flag and the
assembled full name. -/
def NC.observe (nc : NC) (toks : List String) : NC × Bool × Option String :=
  let norm := lowerStr (String.intercalate " " toks)
  let repeats' := if norm ≠ "" ∧ norm = lowerStr nc.lastInput then nc.repeats + 1 else 0
  let lastInput' := String.intercalate " " toks
  match toks with
  | t0 :: t1 :: _ =>
      (⟨some t0, some t1, repeats', lastInput'⟩, true, some (t0 ++ " " ++ t1))
  | [t0] =>
      match nc.first with
      | none => (⟨some t0, nc.last, repeats', lastInput'⟩, false, none)
      | some f => (⟨some f, some t0, repeats', lastInput'⟩, true, some (f ++ " " ++ t0))
  | [] => (⟨nc.first, nc.last, repeats', lastInput'⟩, false, none)

/-- `NameCollector.need_tail` (src/app.py lines 372–373). -/
def NC.needTail (nc : NC) : Bool :=
  nc.first.isSome && nc.last.isNone

/-! ### Phone extractor (src/app.py lines 379–389) -/

/-- `maybe_extract_phone`: strip non-digits, then dispatch on the digit count.
(The `digits.startswith("+")` branch of the source is kept although a string
of digits can never satisfy it.) -/
def maybeExtractPhone (text : String) : Option String :=
  let digits := String.mk (text.data.filter Char.isDigit)
  if 10 ≤ digits.length ∧ digits.length ≤ 15 then
    if digits.length = 10 then some ("+1" ++ digits)
    else if digits.startsWith "1" ∧ digits.length = 11 then some ("+" ++ digits)
    else if digits.startsWith "+" then some digits
    else some ("+" ++ digits)
  else none

/-! ### Persistence layer (src/app.py lines 75–166)

Texts are modelled as `List Char`.  The per-day JSONL file is modelled as the
list of records it holds: `json.dumps`/`json.loads` round-trip the flat string
records written by `save_booking`/`save_optout` faithfully, and
`render_report_csv` is embedded directly over the decoded records.  Timezone
conversion (`astimezone`) is not modelled; the formatted timestamp texts are
taken as given where their content does not matter.
-/

abbrev Text := List Char

/-- Literal text. -/
def strL (s : String) : Text := s.data

/-- `sep.join(parts)` (Python `str.join`). -/
def joinSep (sep : Text) : List Text → Text
  | [] => []
  | [x] => x
  | x :: y :: ys => x ++ sep ++ joinSep sep (y :: ys)

/-- `str.replace('"', '""')` restricted to the one-character pattern the
source uses. -/
def csvEscape : Text → Text
  | [] => []
  | c :: cs => if c = '"' then '"' :: '"' :: csvEscape cs else c :: csvEscape cs

/-- `'"{}"'.format(str(x).replace('"', '""'))` (src/app.py line 164). -/
def csvQuote (t : Text) : Text := '"' :: (csvEscape t ++ ['"'])

/-- Zero-padded decimal rendering (`strftime` field). -/
def padNum (w n : Nat) : Text :=
  let s := (Nat.repr n).data
  List.replicate (w - s.length) '0' ++ s

/-- `dt.strftime("%Y%m%dT%H%M%SZ")` (src/app.py `_ics_dt`, UTC conversion not
modelled). -/
def icsDt (dt : DT) : Text :=
  padNum 4 dt.date.y ++ padNum 2 dt.date.m ++ padNum 2 dt.date.d ++
    ['T'] ++ padNum 2 dt.time.hh ++ padNum 2 dt.time.mm ++ strL "00Z"

/-- `dt.isoformat()` on the stored datetimes (offset suffix not modelled). -/
def isoDT (dt : DT) : Text :=
  padNum 4 dt.date.y ++ ['-'] ++ padNum 2 dt.date.m ++ ['-'] ++ padNum 2 dt.date.d ++
    ['T'] ++ padNum 2 dt.time.hh ++ [':'] ++ padNum 2 dt.time.mm ++ strL ":00"

/-- `start_dt + timedelta(minutes=n)`. -/
def DT.addMin (dt : DT) (n : Nat) : DT :=
  let total := dt.time.hh * 60 + dt.time.mm + n
  ⟨dt.date.addDays (total / 1440), ⟨total % 1440 / 60, total % 60⟩⟩

/-- `str.strip()`. -/
def trimT (t : Text) : Text :=
  ((t.dropWhile Char.isWhitespace).reverse.dropWhile Char.isWhitespace).reverse

/-- `make_ics` (src/app.py lines 82–93): the VCALENDAR lines joined by CRLF. -/
def makeIcs (uid : Text) (nowz startT endT summary description : Text) : Text :=
  joinSep (strL "\r\n")
    [strL "BEGIN:VCALENDAR", strL "VERSION:2.0", strL "PRODID:-//FRG//Chloe//EN",
     strL "CALSCALE:GREGORIAN", strL "METHOD:PUBLISH",
     strL "BEGIN:VEVENT",
     strL "UID:" ++ uid, strL "DTSTAMP:" ++ nowz,
     strL "DTSTART:" ++ startT,
     strL "DTEND:" ++ endT,
     strL "SUMMARY:" ++ summary, strL "DESCRIPTION:" ++ description,
     strL "END:VEVENT", strL "END:VCALENDAR", strL ""]

/-- One decoded record of a per-day JSONL file (the dict written by
`save_booking`/`save_optout`; `stop` stands for the source's `end` key). -/
structure Rec where
  ty : Text
  id : Text
  createdAt : Text
  start : Text
  stop : Text
  caller : Option Text
  name : Text
  address : Text
  note : Text
  calendarLink : Text
  deriving DecidableEq

/-- One CSV data row of `render_report_csv` (src/app.py lines 155–165):
column order `id, type, created_at, caller or "", name or "", address or "",
start, end, note or "", calendar_link or ""`, each quoted. -/
def rowLine (r : Rec) : Text :=
  joinSep (strL ",")
    [csvQuote r.id, csvQuote r.ty, csvQuote r.createdAt,
     csvQuote (r.caller.getD []), csvQuote r.name, csvQuote r.address,
     csvQuote r.start, csvQuote r.stop, csvQuote r.note, csvQuote r.calendarLink]

/-- The header row of `render_report_csv` (src/app.py lines 146–149, 162). -/
def csvHeader : Text :=
  strL "id,record_type,created_at,caller,name,address,appointment_start,appointment_end,note,calendar_link"

/-- `render_report_csv` (src/app.py lines 145–166) over the decoded records of
the day's file. -/
def renderReportCsv (rows : List Rec) : Text :=
  joinSep (strL "\n") (csvHeader :: rows.map rowLine)

/-- The booking record dict built by `save_booking` (src/app.py lines
105–116), with the fresh id and the creation timestamp as inputs. -/
def bookingRec (freshId nowz : Text) (start : DT) (caller : Option Text)
    (name address : Option Text) : Rec :=
  { ty := strL "booking", id := freshId, createdAt := nowz,
    start := isoDT start, stop := isoDT (start.addMin 30),
    caller := caller,
    name := trimT (name.getD []), address := trimT (address.getD []),
    note := strL "Consultation", calendarLink := [] }

/-- The ICS text `save_booking` writes for a record (src/app.py lines
117–120). -/
def bookingIcs (freshId nowz : Text) (start : DT) (caller : Option Text)
    (name address : Option Text) : Text :=
  let r := bookingRec freshId nowz start caller name address
  makeIcs freshId nowz (icsDt start) (icsDt (start.addMin 30))
    (strL "Foreclosure Relief Consultation")
    (strL "Caller: " ++ (caller.getD (strL "unknown")) ++ strL "; Name: " ++
      r.name ++ strL "; Address: " ++ r.address)

/-- The opt-out record dict built by `save_optout` (src/app.py lines
131–143). -/
def optoutRec (freshId nowz : Text) (caller : Option Text)
    (name address : Option Text) : Rec :=
  { ty := strL "optout", id := freshId, createdAt := nowz,
    start := [], stop := [],
    caller := caller,
    name := trimT (name.getD []), address := trimT (address.getD []),
    note := strL "DNC request", calendarLink := [] }

/-! ### Dialogue controller (src/app.py lines 469–769)

The per-call `state` dict of the `/relay` websocket handler becomes `Session`,
one inbound `prompt` event becomes one application of `step`, and letting an
exception escape the per-message logic (the handler only catches
`WebSocketDisconnect`, so any other exception kills the call) becomes an
`Except.error` result carrying the session as mutated up to the raise.
Utterances are represented by the outcomes of the regex extractors
(`Utt`); spoken replies by their message key (`Reply`).

The QNA→BOOKING transition is absent from this variant of `src/app.py`:
`state["mode"]` is never assigned `"booking"`, `hold_date`/`hold_time`/
`hold_dt` are never populated, and `BOOKING_KEYWORDS_RE`, `extract_datetime`,
`offered_booking`, `ask_date` and `ask_time` are declared but never used — yet
the booking-confirm commit (lines 695–704), the hard gate (707–731) and the
repo's own scenario tests all consume that transition.  It is therefore
modelled from the spec (§4.4) in `bookingFill`, `bookingSlotBlock` and
`bookingEntryBlock` below; every other block is a line-by-line translation of
the source.
-/

inductive Lang where
  | en
  | es
  deriving DecidableEq, Repr

inductive Mode where
  | none
  | booking
  | optout
  deriving DecidableEq, Repr

inductive Need where
  | none
  | date
  | time
  | name
  | address
  | phone
  | confirm
  deriving DecidableEq, Repr

inductive Capture where
  | none
  | name
  | address
  | phone
  deriving DecidableEq, Repr

/-- The spoken replies, by message key (`MESSAGES[lang][...]` or literal). -/
inductive Reply where
  | langChoice
  | langSetEn
  | langSetEs
  | greetingEn
  | greetingEs
  | askDate
  | askTime
  | askName
  | sayLastName
  | nameHeardConfirm
  | askAddress
  | askPhone
  | confirmBooking
  | booked
  | optStart
  | optAddr
  | optPhone
  | optConfirm
  | optDone
  | pleaseYesNo
  | whenClarify
  | llmReply
  | llmApology
  deriving DecidableEq, Repr

/-- Uncaught Python exceptions: `noneValue` for `AttributeError`/`TypeError`/
`KeyError` on a `None` where a value is required (`when_phrase(None)`,
`datetime.combine(None, ...)`, `save_booking(None, ...)`, `MESSAGES[None]`),
`ioFail` for an `OSError` raised by a persistence write. -/
inductive Err where
  | noneValue
  | ioFail
  deriving DecidableEq, Repr

/-- A durable record written during the turn. -/
inductive Commit where
  | booking
  | optout
  deriving DecidableEq, Repr

/-- The per-call mutable state (src/app.py lines 476–492) plus the caller id
from the `setup` event and a ghost field `lastReply` recording the final text
sent in the previous prompt turn. -/
structure Session where
  caller : Option String
  lang : Option Lang
  langPrompted : Bool
  mode : Mode
  need : Need
  holdDate : Option Date
  holdTime : Option Time
  holdDT : Option DT
  holdName : Option String
  holdAddress : Option String
  holdPhone : Option String
  offeredBooking : Bool
  captureNext : Capture
  nameCollector : Option NC
  lastReply : Option Reply
  deriving DecidableEq, Repr

/-- Initial state of a call (src/app.py lines 476–492). -/
def initSession (c : Option String) : Session :=
  { caller := c, lang := none, langPrompted := false, mode := .none,
    need := .none, holdDate := none, holdTime := none, holdDT := none,
    holdName := none, holdAddress := none, holdPhone := none,
    offeredBooking := false, captureNext := .none, nameCollector := none,
    lastReply := none }

/-- One inbound utterance, represented by the outcome of every extractor the
controller applies to it: `raw` is `user_text`, `rawTrimmed` is
`user_text.strip()`, `nameToks` is `NameCollector.tokens(user_text)`,
`addrCand` is `(maybe_extract_address(user_text) or user_text).strip()`,
`addrOk` is `is_full_street_address(addrCand)`, `rawAddrOk` is
`is_full_street_address(user_text.strip())`, the booleans are the intent
regexes, and `pdate`/`ptime` are the values `parse_date_phrase`/
`parse_time_phrase` return when they return (see `parseDatePhrase` for the
month-name utterances on which the former raises instead). -/
structure Utt where
  empty : Bool
  raw : String
  rawTrimmed : String
  isYes : Bool
  isOptOut : Bool
  sched : Bool
  dateClarify : Bool
  langEs : Bool
  langEn : Bool
  nameToks : List String
  addrCand : String
  addrOk : Bool
  rawAddrOk : Bool
  pdate : Option Date
  ptime : Option Time
  deriving DecidableEq, Repr

/-- Per-turn environment: whether each side effect of the turn succeeds.
`mirrorOk` is the mirror write of `save_booking` (lines 122–128): its failure
is swallowed by the surrounding `try/except`, so it has no observable effect
on the call. -/
structure Eff where
  icsOk : Bool
  bookOk : Bool
  mirrorOk : Bool
  optOk : Bool
  llmOk : Bool
  deriving DecidableEq, Repr

/-- Result of one prompt turn: next session, spoken replies, written records. -/
structure Outcome where
  sess : Session
  replies : List Reply
  commits : List Commit
  deriving DecidableEq, Repr

/-- Result of one code block of the turn: either the turn ends here (with a
normal outcome or an uncaught exception) or control falls through. -/
inductive BlockRes where
  | done (r : Except (Err × Session) Outcome)
  | pass (s : Session)

def BlockRes.ok (s : Session) (rs : List Reply) (cs : List Commit) : BlockRes :=
  .done (.ok ⟨s, rs, cs⟩)

def BlockRes.err (e : Err) (s : Session) : BlockRes :=
  .done (.error (e, s))

/-- A newly parsed slot value takes precedence over the held one. -/
def pickSlot {α : Type} : Option α → Option α → Option α
  | some x, _ => some x
  | none, y => y

/-- The slot reset performed after a successful commit (src/app.py lines 691
and 702): exactly these eight keys, nothing else. -/
def resetCommit (s : Session) : Session :=
  { s with mode := .none, need := .none, holdDate := none, holdTime := none,
           holdDT := none, holdName := none, holdAddress := none,
           holdPhone := none }

/-- Active slot capture (src/app.py lines 511–580). -/
def captureBlock (s : Session) (u : Utt) : BlockRes :=
  match s.captureNext with
  | .none => .pass s
  | .name =>
      let nc0 := s.nameCollector.getD NC.init
      let res := nc0.observe u.nameToks
      let nc' := res.1
      let s1 := { s with nameCollector := some nc' }
      match res.2 with
      | (true, some fn) =>
          let s2 := { s1 with holdName := some fn, captureNext := .none,
                              need := .address }
          match s2.lang with
          | none => .err .noneValue s2
          | some _ => .ok s2 [.askAddress] []
      | _ =>
          if nc'.needTail then .ok { s1 with captureNext := .name } [.sayLastName] []
          else if 2 ≤ nc'.repeats then
            .ok { s1 with captureNext := .name } [.nameHeardConfirm] []
          else
            match s1.lang with
            | none => .err .noneValue { s1 with captureNext := .name }
            | some _ => .ok { s1 with captureNext := .name } [.askName] []
  | .address =>
      if u.addrOk then
        let s1 := { s with holdAddress := some u.addrCand, captureNext := .none }
        if s1.caller.isNone && s1.holdPhone.isNone then
          let s2 := { s1 with need := .phone }
          match s2.lang with
          | none => .err .noneValue s2
          | some _ => .ok s2 [.askPhone] []
        else
          let s2 := { s1 with need := .confirm }
          match s2.holdDT with
          | none => .err .noneValue s2
          | some _ =>
              match s2.lang with
              | none => .err .noneValue s2
              | some _ => .ok s2 [.confirmBooking] []
      else
        match s.lang with
        | none => .err .noneValue s
        | some _ => .ok { s with captureNext := .address } [.askAddress] []
  | .phone =>
      match maybeExtractPhone u.raw with
      | some ph =>
          let s1 := { s with holdPhone := some ph, captureNext := .none,
                             need := .confirm }
          match s1.holdDT with
          | none => .err .noneValue s1
          | some _ =>
              match s1.lang with
              | none => .err .noneValue s1
              | some _ => .ok s1 [.confirmBooking] []
      | none =>
          match s.lang with
          | none => .err .noneValue s
          | some _ => .ok { s with captureNext := .phone } [.askPhone] []

/-- Legacy need gate for address/phone (src/app.py lines 584–612). -/
def legacyBlock (s : Session) (u : Utt) : BlockRes :=
  match s.need with
  | .address =>
      if u.addrOk then
        let s1 := { s with holdAddress := some u.addrCand }
        if s1.caller.isNone && s1.holdPhone.isNone then
          let s2 := { s1 with need := .phone }
          match s2.lang with
          | none => .err .noneValue s2
          | some _ => .ok s2 [.askPhone] []
        else
          let s2 := { s1 with need := .confirm }
          match s2.holdDT with
          | none => .err .noneValue s2
          | some _ =>
              match s2.lang with
              | none => .err .noneValue s2
              | some _ => .ok s2 [.confirmBooking] []
      else
        match s.lang with
        | none => .err .noneValue s
        | some _ => .ok s [.askAddress] []
  | .phone =>
      match maybeExtractPhone u.raw with
      | some ph =>
          let s1 := { s with holdPhone := some ph, need := .confirm }
          match s1.holdDT with
          | none => .err .noneValue s1
          | some _ =>
              match s1.lang with
              | none => .err .noneValue s1
              | some _ => .ok s1 [.confirmBooking] []
      | none =>
          match s.lang with
          | none => .err .noneValue s
          | some _ => .ok s [.askPhone] []
  | _ => .pass s

/-- Language selection (src/app.py lines 615–639).  After an unanswered
prompt the language defaults to English and the turn continues. -/
def langBlock (s : Session) (u : Utt) : BlockRes :=
  match s.lang with
  | some _ => .pass s
  | none =>
      if u.langEs then
        .ok { s with lang := some .es, offeredBooking := true }
          [.langSetEs, .greetingEs] []
      else if u.langEn then
        .ok { s with lang := some .en, offeredBooking := true }
          [.langSetEn, .greetingEn] []
      else if s.langPrompted = false then
        .ok { s with langPrompted := true } [.langChoice] []
      else .pass { s with lang := some .en }

/-- Quick date clarification (src/app.py lines 647–649). -/
def clarifyBlock (s : Session) (u : Utt) : BlockRes :=
  if u.dateClarify && s.holdDT.isSome then .ok s [.whenClarify] [] else .pass s

/-- Opt-out entry, available anytime (src/app.py lines 652–666).  Note that
with no held name the source evaluates `when_phrase(state["hold_dt"], lang)`
(line 658), which raises on a `None` `hold_dt`. -/
def optoutEntryBlock (s : Session) (u : Utt) : BlockRes :=
  if u.isOptOut then
    let s1 := { s with mode := .optout }
    if s1.holdName.isNone then
      let s2 := { s1 with need := .name, captureNext := .name,
                          nameCollector := some NC.init }
      match s2.holdDT with
      | none => .err .noneValue s2
      | some _ => .ok s2 [.askName] []
    else if s1.holdAddress.isNone then
      .ok { s1 with need := .address, captureNext := .address } [.askAddress] []
    else if s1.caller.isNone && s1.holdPhone.isNone then
      .ok { s1 with need := .phone, captureNext := .phone } [.askPhone] []
    else
      let s2 := { s1 with need := .confirm }
      match s2.holdDT with
      | none => .err .noneValue s2
      | some _ => .ok s2 [.confirmBooking] []
  else .pass s

/-- Opt-out slot flow and commit (src/app.py lines 668–693). -/
def optoutModeBlock (eff : Eff) (s : Session) (u : Utt) : BlockRes :=
  if s.mode = .optout then
    match s.need with
    | .name =>
        if u.rawTrimmed.length < 2 then .ok s [.askName] []
        else .ok { s with holdName := some u.rawTrimmed, need := .address }
          [.optAddr] []
    | .address =>
        if u.rawAddrOk = false then .ok s [.optAddr] []
        else
          let s1 := { s with holdAddress := some u.rawTrimmed }
          if s1.caller.isNone && s1.holdPhone.isNone then
            .ok { s1 with need := .phone } [.optPhone] []
          else .ok { s1 with need := .confirm } [.optConfirm] []
    | .phone =>
        match maybeExtractPhone u.raw with
        | none => .ok s [.optPhone] []
        | some ph =>
            .ok { s with holdPhone := some ph, need := .confirm } [.optConfirm] []
    | .confirm =>
        if u.isYes then
          if eff.optOk then .ok (resetCommit s) [.optDone] [.optout]
          else .err .ioFail s
        else .ok s [.pleaseYesNo] []
    | _ => .pass s
  else .pass s

/-- Booking confirmation and commit (src/app.py lines 695–704).  On "yes" the
source calls `save_booking(state["hold_dt"], ...)` with no `try/except`: a
`None` `hold_dt` raises before any write, and a failing ICS or day-log write
propagates out of the turn. -/
def bookingConfirmBlock (eff : Eff) (s : Session) (u : Utt) : BlockRes :=
  if s.mode = .booking && s.need = .confirm then
    if u.isYes then
      match s.holdDT with
      | none => .err .noneValue s
      | some _ =>
          if eff.icsOk && eff.bookOk then .ok (resetCommit s) [.booked] [.booking]
          else .err .ioFail s
    else .ok s [.pleaseYesNo] []
  else .pass s

/-- Modelled from the spec: the date→time slot filling of the BOOKING mode
(§4.4 "sequentially resolves `date → time → name → ...`"), absent from
src/app.py although its prompts `ask_date`/`ask_time` and the parse helpers
exist there unused.  Captures any parsed date/time from the utterance, prompts
for the first missing one, and on completion combines them into `hold_dt`
(as `extract_datetime`, src/app.py lines 257–263, does) and falls through to
the hard gate. -/
def bookingFill (s : Session) (u : Utt) : BlockRes :=
  let s1 := { s with holdDate := pickSlot u.pdate s.holdDate,
                     holdTime := pickSlot u.ptime s.holdTime }
  match s1.holdDate, s1.holdTime with
  | none, _ => .ok { s1 with need := .date } [.askDate] []
  | some _, none => .ok { s1 with need := .time } [.askTime] []
  | some d, some t =>
      .pass { s1 with holdDT := some ⟨d, t⟩, need := .none }

/-- Modelled from the spec: consuming an utterance while the BOOKING mode is
waiting for the date or the time slot (§4.4). -/
def bookingSlotBlock (s : Session) (u : Utt) : BlockRes :=
  if s.mode = .booking && (s.need = .date || s.need = .time) then bookingFill s u
  else .pass s

/-- Modelled from the spec: the QNA→BOOKING transition (§4.4 "An utterance
matching scheduling intent, or containing a recognizable date/time, or
following an explicit system-issued scheduling offer with an affirmative →
BOOKING"), absent from src/app.py. -/
def bookingEntryBlock (s : Session) (u : Utt) : BlockRes :=
  if s.mode = .none && s.need = .none &&
      (u.sched || u.pdate.isSome || u.ptime.isSome ||
        (s.offeredBooking && u.isYes)) then
    bookingFill { s with mode := .booking } u
  else .pass s

/-- Hard gate: guided-flow re-prompting that bypasses the LLM fallthrough
(src/app.py lines 707–731). -/
def hardGateBlock (s : Session) : BlockRes :=
  if s.mode = .booking || s.mode = .optout || s.need ≠ .none then
    if s.mode = .booking then
      if s.holdName.isNone then
        let s1 := { s with need := .name, captureNext := .name,
                           nameCollector := some NC.init }
        match s1.holdDT with
        | none => .err .noneValue s1
        | some _ => .ok s1 [.askName] []
      else if s.holdAddress.isNone then .ok s [.askAddress] []
      else if s.caller.isNone && s.holdPhone.isNone then .ok s [.askPhone] []
      else
        match s.holdDate, s.holdTime with
        | some _, some _ => .ok { s with need := .confirm } [.confirmBooking] []
        | _, _ => .err .noneValue s
    else if s.mode = .optout then
      if s.holdName.isNone then .ok s [.optStart] []
      else if s.holdAddress.isNone then .ok s [.optAddr] []
      else if s.caller.isNone && s.holdPhone.isNone then .ok s [.optPhone] []
      else .ok { s with need := .confirm } [.optConfirm] []
    else .pass s
  else .pass s

/-- LLM fallthrough (src/app.py lines 734–755): an upstream failure is caught
and answered with the apology line. -/
def llmBlock (eff : Eff) (s : Session) : Except (Err × Session) Outcome :=
  .ok ⟨s, [if eff.llmOk then .llmReply else .llmApology], []⟩

def chain (r : BlockRes) (k : Session → Except (Err × Session) Outcome) :
    Except (Err × Session) Outcome :=
  match r with
  | .done e => e
  | .pass s => k s

/-- The tail of a prompt turn from the (modelled) QNA→BOOKING transition on. -/
def stepGate (eff : Eff) (s : Session) (u : Utt) :
    Except (Err × Session) Outcome :=
  chain (bookingEntryBlock s u) fun s =>
  chain (hardGateBlock s) fun s =>
  llmBlock eff s

/-- The tail of a prompt turn from the (modelled) date/time slot filling on. -/
def stepSlots (eff : Eff) (s : Session) (u : Utt) :
    Except (Err × Session) Outcome :=
  chain (bookingSlotBlock s u) fun s => stepGate eff s u

/-- The blocks of a prompt turn that run after the language-selection gate
(src/app.py lines 642–755). -/
def stepPost (eff : Eff) (s : Session) (u : Utt) :
    Except (Err × Session) Outcome :=
  chain (clarifyBlock s u) fun s =>
  chain (optoutEntryBlock s u) fun s =>
  chain (optoutModeBlock eff s u) fun s =>
  chain (bookingConfirmBlock eff s u) fun s =>
  stepSlots eff s u

/-- One inbound `prompt` event (src/app.py lines 503–755), before the
`lastReply` bookkeeping. -/
def stepCore (eff : Eff) (s : Session) (u : Utt) :
    Except (Err × Session) Outcome :=
  if u.empty then .ok ⟨s, [], []⟩ else
  chain (captureBlock s u) fun s =>
  chain (legacyBlock s u) fun s =>
  chain (langBlock s u) fun s =>
  stepPost eff s u

/-- One inbound `prompt` event, recording the last spoken reply. -/
def step (eff : Eff) (s : Session) (u : Utt) :
    Except (Err × Session) Outcome :=
  match stepCore eff s u with
  | .error e => .error e
  | .ok o =>
      .ok { o with sess := { o.sess with lastReply :=
              match o.replies.getLast? with
              | some r => some r
              | none => o.sess.lastReply } }

/-- One inbound `interrupt` event (src/app.py lines 757–761). -/
def stepInterrupt (s : Session) : Session :=
  if s.need = .name then { s with captureNext := .name } else s

/-- The states a call can be in: the initial state, closed under prompt turns
that do not raise and under interrupt events. -/
inductive Reachable : Session → Prop
  | init (c : Option String) : Reachable (initSession c)
  | prompt {s : Session} {eff : Eff} {u : Utt} {o : Outcome} :
      Reachable s → step eff s u = .ok o → Reachable o.sess
  | intr {s : Session} : Reachable s → Reachable (stepInterrupt s)

/-- The controller invariant, preserved by `step` and `stepInterrupt` from the
initial state: whenever a slot stage is pending, the stages before it have
been resolved; the CONFIRM stage always has name, address, phone-or-caller
(and, in booking mode, the combined datetime) on hand; an active flow implies
the language has been chosen. -/
structure Inv (s : Session) : Prop where
  nameOfNeed : s.need = .address ∨ s.need = .phone ∨ s.need = .confirm →
    s.holdName.isSome = true
  nameOfCapAddr : s.captureNext = .address → s.holdName.isSome = true
  capPhone : s.captureNext = .phone →
    s.holdName.isSome = true ∧ s.holdAddress.isSome = true
  addrOfNeedPhone : s.need = .phone → s.holdAddress.isSome = true
  confirmSlots : s.need = .confirm →
    s.holdAddress.isSome = true ∧ (s.holdPhone.isSome = true ∨ s.caller.isSome = true)
  confirmDT : s.need = .confirm → s.mode = .booking → s.holdDT.isSome = true
  bookingDT : s.mode = .booking →
    s.need = .date ∨ s.need = .time ∨ s.holdDT.isSome = true
  capName : s.captureNext = .name → s.need = .name
  capAddrNeed : s.captureNext = .address → s.need = .address
  capPhoneNeed : s.captureNext = .phone → s.need = .phone
  dtParts : s.holdDT.isSome = true →
    s.holdDate.isSome = true ∧ s.holdTime.isSome = true
  langSet : s.captureNext ≠ .none ∨ s.need ≠ .none ∨ s.mode ≠ .none →
    s.lang.isSome = true

/-- Was the previous system turn an explicit yes/no scheduling offer?  The
only such reply is the booking confirmation read-back. -/
def isSchedOffer : Option Reply → Bool
  | some .confirmBooking => true
  | _ => false

/-- An utterance on which every extractor comes back empty. -/
def baseUtt : Utt :=
  { empty := false, raw := "", rawTrimmed := "", isYes := false,
    isOptOut := false, sched := false, dateClarify := false, langEs := false,
    langEn := false, nameToks := [], addrCand := "", addrOk := false,
    rawAddrOk := false, pdate := none, ptime := none }

/-- All side effects succeed. -/
def effAll : Eff := ⟨true, true, true, true, true⟩

/-- "English". -/
def uEn : Utt :=
  { baseUtt with
    raw := "English"
    rawTrimmed := "English"
    langEn := true
    nameToks := ["English"] }

/-- "Thursday at 1pm" (with now = Sunday 2025-10-12). -/
def uThu : Utt :=
  { baseUtt with
    raw := "Thursday at 1pm"
    rawTrimmed := "Thursday at 1pm"
    nameToks := ["Thursday", "at", "pm"]
    pdate := some ⟨2025, 10, 16⟩
    ptime := some ⟨13, 0⟩ }

/-- "John Smith". -/
def uJohnSmith : Utt :=
  { baseUtt with
    raw := "John Smith"
    rawTrimmed := "John Smith"
    nameToks := ["John", "Smith"] }

/-- "123 Main St, Stockton, CA". -/
def uAddr : Utt :=
  { baseUtt with
    raw := "123 Main St, Stockton, CA"
    rawTrimmed := "123 Main St, Stockton, CA"
    nameToks := ["Main", "St", "Stockton", "CA"]
    addrCand := "123 Main St, Stockton, CA"
    addrOk := true
    rawAddrOk := true }

/-- "Yes" — a bare affirmative: no scheduling keyword, no date, no time. -/
def uYes : Utt :=
  { baseUtt with
    raw := "Yes"
    rawTrimmed := "Yes"
    isYes := true
    nameToks := ["Yes"] }

/-- "around the corner" — fails address validation. -/
def uBlah : Utt :=
  { baseUtt with
    raw := "around the corner"
    rawTrimmed := "around the corner"
    nameToks := ["around", "the", "corner"] }

/-- Scenario-A call progress: fresh call with caller id. -/
def sA0 : Session := initSession (some "+15551112222")

/-- After "English": language chosen, scheduling offered in the greeting. -/
def sA1 : Session :=
  { sA0 with
    lang := some .en
    offeredBooking := true
    lastReply := some .greetingEn }

/-- After "Thursday at 1pm": booking mode, date/time held, name pending. -/
def sA2 : Session :=
  { sA1 with
    mode := .booking
    need := .name
    holdDate := some ⟨2025, 10, 16⟩
    holdTime := some ⟨13, 0⟩
    holdDT := some ⟨⟨2025, 10, 16⟩, ⟨13, 0⟩⟩
    captureNext := .name
    nameCollector := some NC.init
    lastReply := some .askName }

/-- After "John Smith": name held, address pending. -/
def sA3 : Session :=
  { sA2 with
    holdName := some "John Smith"
    captureNext := .none
    need := .address
    nameCollector := some ⟨some "John", some "Smith", 0, "John Smith"⟩
    lastReply := some .askAddress }

/-- After the address: confirmation pending. -/
def sA4 : Session :=
  { sA3 with
    holdAddress := some "123 Main St, Stockton, CA"
    need := .confirm
    lastReply := some .confirmBooking }

/-- After "Yes": committed and reset. -/
def sA5 : Session :=
  { sA4 with
    mode := .none
    need := .none
    holdDate := none
    holdTime := none
    holdDT := none
    holdName := none
    holdAddress := none
    holdPhone := none
    lastReply := some .booked }

/-! ## Theorems -/

theorem intercalate_one (s x : String) : String.intercalate s [x] = x := rfl

/-- C4 counterexample: in the collector state reached after binding the first
token "John" (so `first = some "John"`, `last_input = "John"`), observing the
single-token utterance "John" again — a repeat of the same token — does
increment `repeats`, but returns done with the duplicated name "John John"
instead of the claimed not-done. -/
theorem c4_counterexample :
    (NC.observe ⟨some "John", none, 0, "John"⟩ ["John"]).2.1 = true ∧
    (NC.observe ⟨some "John", none, 0, "John"⟩ ["John"]).2.2 = some "John John" ∧
    (NC.observe ⟨some "John", none, 0, "John"⟩ ["John"]).1.repeats = 1 := by
  decide

/-- C4 (amended): with a bound first token, a single-token utterance always
returns done with `first ++ " " ++ token` — whether the token differs from or
repeats the previous input — and `repeats` is incremented exactly when the
token (case-insensitively) repeats the previous input, else reset to 0. -/
theorem c4_name_collector (nc : NC) (f : String) (h : nc.first = some f)
    (tok : String) :
    (nc.observe [tok]).2.1 = true ∧
    (nc.observe [tok]).2.2 = some (f ++ " " ++ tok) ∧
    (nc.observe [tok]).1.repeats =
      (if lowerStr tok ≠ "" ∧ lowerStr tok = lowerStr nc.lastInput
       then nc.repeats + 1 else 0) := by
  simp only [NC.observe, intercalate_one, h]
  exact ⟨trivial, trivial, trivial⟩

/-- C4 witness: the amended theorem evaluated at the post-first-binding state
and the differing token "Smith". -/
theorem c4_witness :
    (NC.observe ⟨some "John", none, 0, "John"⟩ ["Smith"]).2.1 = true ∧
    (NC.observe ⟨some "John", none, 0, "John"⟩ ["Smith"]).2.2 = some "John Smith" ∧
    (NC.observe ⟨some "John", none, 0, "John"⟩ ["Smith"]).1.repeats =
      (if lowerStr "Smith" ≠ "" ∧ lowerStr "Smith" = lowerStr "John"
       then 0 + 1 else 0) :=
  c4_name_collector ⟨some "John", none, 0, "John"⟩ "John" rfl "Smith"

/-- C6: a bare hour `H ≤ 7` with no am/pm marker parses as the PM hour
`H + 12`; and whenever the post-adjustment hour exceeds 23 or the minute
exceeds 59, the parser returns `none` instead of a time (or an exception). -/
theorem c6_time_parse (h : Nat) (m : Option Nat) (ap : Option AmPm) :
    (h ≤ 7 → parseTimePhrase (.hm h none none) = some ⟨h + 12, 0⟩) ∧
    (23 < interpHour h ap ∨ 59 < m.getD 0 → parseTimePhrase (.hm h m ap) = none) := by
  constructor
  · intro hle
    simp only [parseTimePhrase, interpHour, Option.getD]
    rw [if_pos hle, if_neg]
    omega
  · intro hcond
    simp only [parseTimePhrase]
    rw [if_pos hcond]

/-- C6 witness: "5" parses as 17:00; "25:70" (hour 25, minute 70) yields
absent. -/
theorem c6_witness :
    parseTimePhrase (.hm 5 none none) = some ⟨5 + 12, 0⟩ ∧
    parseTimePhrase (.hm 25 (some 70) none) = none :=
  ⟨(c6_time_parse 5 none none).1 (by decide),
   (c6_time_parse 25 (some 70) none).2 (by decide)⟩

/-- C7: the phone extractor keeps exactly the digit characters of the input;
a digit count outside 10–15 yields absent, exactly 10 digits yield the digits
prefixed with the default country prefix "+1", and 11 digits starting with '1'
yield "+" followed by the digits. -/
theorem c7_phone_extractor (text : String) :
    ((String.mk (text.data.filter Char.isDigit)).length < 10 ∨
        15 < (String.mk (text.data.filter Char.isDigit)).length →
      maybeExtractPhone text = none) ∧
    ((String.mk (text.data.filter Char.isDigit)).length = 10 →
      maybeExtractPhone text = some ("+1" ++ String.mk (text.data.filter Char.isDigit))) ∧
    ((String.mk (text.data.filter Char.isDigit)).length = 11 →
      (String.mk (text.data.filter Char.isDigit)).startsWith "1" = true →
      maybeExtractPhone text = some ("+" ++ String.mk (text.data.filter Char.isDigit))) := by
  refine ⟨fun hout => ?_, fun h10 => ?_, fun h11 hsw => ?_⟩
  · simp only [maybeExtractPhone]
    rw [if_neg]
    omega
  · simp only [maybeExtractPhone]
    rw [if_pos (by omega), if_pos h10]
  · simp only [maybeExtractPhone]
    rw [if_pos (by omega), if_neg (by omega), if_pos ⟨hsw, h11⟩]

/-- C7 witness: a 10-digit input gains the "+1" prefix; a 9-digit input is
rejected. -/
theorem c7_witness :
    maybeExtractPhone "call 555-123-4567" = some "+15551234567" ∧
    maybeExtractPhone "555-1234" = none := by
  constructor
  · have h := (c7_phone_extractor "call 555-123-4567").2.1 (by decide)
    rw [h]; decide
  · exact (c7_phone_extractor "555-1234").1 (by decide)

theorem daysInMonth_pos (y m : Nat) : 1 ≤ daysInMonth y m := by
  unfold daysInMonth
  split
  · split <;> omega
  · split <;> omega

theorem Date.ltb_iff {a b : Date} :
    a.ltb b = true ↔
      a.y < b.y ∨ (a.y = b.y ∧ (a.m < b.m ∨ (a.m = b.m ∧ a.d < b.d))) := by
  simp [Date.ltb, Bool.or_eq_true, Bool.and_eq_true, decide_eq_true_eq,
    Nat.beq_eq_true_eq]

theorem Date.valid_iff {dt : Date} :
    dt.valid = true ↔
      1 ≤ dt.m ∧ dt.m ≤ 12 ∧ 1 ≤ dt.d ∧ dt.d ≤ daysInMonth dt.y dt.m := by
  simp [Date.valid, Bool.and_eq_true, decide_eq_true_eq]
  tauto

theorem Date.valid_next {dt : Date} (h : dt.valid = true) : dt.next.valid = true := by
  rw [Date.valid_iff] at h
  have p1 := daysInMonth_pos dt.y (dt.m + 1)
  have p2 := daysInMonth_pos (dt.y + 1) 1
  unfold Date.next
  split
  · rw [Date.valid_iff]; dsimp; omega
  · split
    · rw [Date.valid_iff]; dsimp; omega
    · rw [Date.valid_iff]; dsimp; omega

theorem Date.ltb_next {dt : Date} : dt.ltb dt.next = true := by
  unfold Date.next
  split
  · rw [Date.ltb_iff]; dsimp; omega
  · split
    · rw [Date.ltb_iff]; dsimp; omega
    · rw [Date.ltb_iff]; dsimp; omega

theorem Date.ltb_trans {a b c : Date} (h1 : a.ltb b = true)
    (h2 : b.ltb c = true) : a.ltb c = true := by
  rw [Date.ltb_iff] at h1 h2 ⊢
  omega

theorem Date.valid_addDays {dt : Date} (h : dt.valid = true) (n : Nat) :
    (dt.addDays n).valid = true := by
  induction n with
  | zero => exact h
  | succ k ih => exact Date.valid_next ih

theorem Date.ltb_addDays {dt : Date} {n : Nat} (hn : 1 ≤ n) :
    dt.ltb (dt.addDays n) = true := by
  induction n with
  | zero => omega
  | succ k ih =>
      rcases Nat.eq_or_lt_of_le hn with h | h
      · have : k = 0 := by omega
        subst this
        exact Date.ltb_next
      · exact Date.ltb_trans (ih (by omega)) Date.ltb_next

/-- C5: for a weekday-name phrase the parser returns a date strictly after
now's date, exactly `k` days ahead for some `1 ≤ k ≤ 7`; and when today
already is the named weekday it returns the date one week later (hence the
same weekday), so never today and never a past date. -/
theorem c5_next_weekday (now : Now) (w : Fin 7) (r : Date)
    (hp : parseDatePhrase (.weekday w) now = .ok (some r)) :
    now.date.ltb r = true ∧
    (∃ k, 1 ≤ k ∧ k ≤ 7 ∧ r = now.date.addDays k) ∧
    (now.wd = w → r = now.date.addDays 7) := by
  simp only [parseDatePhrase, nextWeekday, Except.ok.injEq,
    Option.some.injEq] at hp
  subst hp
  refine ⟨?_, ?_, ?_⟩
  · apply Date.ltb_addDays
    split <;> omega
  · refine ⟨if (7 + w.val - now.wd.val) % 7 = 0 then 7 else (7 + w.val - now.wd.val) % 7,
      ?_, ?_, rfl⟩
    · split <;> omega
    · have := Nat.mod_lt (7 + w.val - now.wd.val) (Nat.succ_pos 6)
      split <;> omega
  · intro hw
    subst hw
    have h0 : (7 + now.wd.val - now.wd.val) % 7 = 0 := by omega
    rw [h0]
    simp

/-- C5 witness: from Sunday 2025-10-12, "Thursday" resolves to 2025-10-16. -/
theorem c5_witness :
    Date.ltb ⟨2025, 10, 12⟩ (Date.addDays ⟨2025, 10, 12⟩ 4) = true ∧
    (∃ k, 1 ≤ k ∧ k ≤ 7 ∧
      Date.addDays ⟨2025, 10, 12⟩ 4 = Date.addDays ⟨2025, 10, 12⟩ k) := by
  have h := c5_next_weekday ⟨⟨2025, 10, 12⟩, ⟨6, by omega⟩⟩ ⟨3, by omega⟩
    (Date.addDays ⟨2025, 10, 12⟩ 4) rfl
  exact ⟨h.1, h.2.1⟩

theorem mkDate_some {y m d : Nat} {x : Date} (hx : mkDate y m d = some x) :
    x = ⟨y, m, d⟩ := by
  unfold mkDate at hx
  split at hx
  · exact ((Option.some.injEq _ _).mp hx).symm
  · exact absurd hx (by simp)

theorem mdRollover_some {now : Now} {mon day : Nat} {r : Date}
    (hr : mdRollover mon day now = some r) :
    r.ltb now.date = false ∧
    ∀ d0, mkDate now.date.y mon day = some d0 → d0.ltb now.date = true →
      r = ⟨now.date.y + 1, mon, day⟩ := by
  unfold mdRollover at hr
  cases h0 : mkDate now.date.y mon day with
  | none => simp [h0] at hr
  | some d0 =>
      simp only [h0] at hr
      by_cases hlt : d0.ltb now.date = true
      · rw [if_pos hlt] at hr
        have hval : r = Date.mk (now.date.y + 1) mon day := mkDate_some hr
        refine ⟨?_, fun d1 h1 h2 => hval⟩
        rw [hval, Bool.eq_false_iff]
        intro hcon
        rw [Date.ltb_iff] at hcon
        dsimp at hcon
        omega
      · rw [if_neg hlt] at hr
        have hval : d0 = r := (Option.some.injEq _ _).mp hr
        refine ⟨?_, fun d1 h1 h2 => ?_⟩
        · rw [← hval]
          exact Bool.eq_false_iff.mpr hlt
        · have hd : d0 = d1 := (Option.some.injEq _ _).mp h1
          exact absurd h2 (hd ▸ hlt)

/-- C10 counterexample: with now = 2025-10-12, the month-name phrase "May 3"
names a valid current-year date strictly before now, yet the parser does not
return that month and day in the following year: it raises an uncaught
exception (`day = int(m.group(2))` at src/app.py line 204, before the `try`,
reads the nested `(iembre|iembre)` capture group instead of the day digits).
And the ISO string "2023-05-10" is not returned as written: its `05-10` tail
matches the earlier M/D regex and resolves to 2026-05-10. -/
theorem c10_counterexample :
    Date.ltb ⟨2025, 5, 3⟩ ⟨2025, 10, 12⟩ = true ∧
    parseDatePhrase (.monthDay 5 3) ⟨⟨2025, 10, 12⟩, ⟨6, by omega⟩⟩ =
      .error () ∧
    parseDatePhrase (.iso 2023 5 10) ⟨⟨2025, 10, 12⟩, ⟨6, by omega⟩⟩ =
      .ok (some ⟨2026, 5, 10⟩) :=
  ⟨by decide, rfl, rfl⟩

/-- C10 (amended): a month-name-plus-day phrase always raises an uncaught
exception (the day is read from the wrong capture group before the `try`), so
that input form never yields any date, past or otherwise.  A numeric M/D
phrase never yields a date strictly before now: when the current-year date
exists but lies strictly before now's date, any returned date is that same
month and day in the following year (and when that next-year date does not
exist, e.g. February 29, the fall-through returns no date).  An ISO phrase is
NOT in general returned as written: its MM-DD tail is first re-parsed by the
M/D branch with current-year rollover — so any date it yields that way is not
strictly before now — and only when that reading falls through is the date
returned as written, past dates included. -/
theorem c10_date_rollover (now : Now) (mon day : Nat) (r : Date) :
    parseDatePhrase (.monthDay mon day) now = .error () ∧
    (parseDatePhrase (.mdy mon day) now = .ok (some r) →
      r.ltb now.date = false ∧
      ∀ d0, mkDate now.date.y mon day = some d0 → d0.ltb now.date = true →
        r = ⟨now.date.y + 1, mon, day⟩) ∧
    (∀ y, parseDatePhrase (.iso y mon day) now = .ok (some r) →
      (mdRollover mon day now = some r ∧ r.ltb now.date = false) ∨
      (mdRollover mon day now = none ∧ mkDate y mon day = some r)) := by
  refine ⟨rfl, fun hp => ?_, fun y hp => ?_⟩
  · have h : mdRollover mon day now = some r := by
      simpa only [parseDatePhrase, Except.ok.injEq] using hp
    exact mdRollover_some h
  · simp only [parseDatePhrase, Except.ok.injEq] at hp
    cases h0 : mdRollover mon day now with
    | some dd =>
        rw [h0] at hp
        have hdd : dd = r := (Option.some.injEq _ _).mp hp
        subst hdd
        exact .inl ⟨rfl, (mdRollover_some h0).1⟩
    | none =>
        rw [h0] at hp
        exact .inr ⟨rfl, hp⟩

/-- C10 witness: with now = 2025-01-10, the month-name phrase "January 5"
raises; the numeric phrase "1/5" (which in 2025 falls before now) resolves to
2026-01-05, which is not before now and is the following-year date. -/
theorem c10_witness :
    parseDatePhrase (.monthDay 1 5) ⟨⟨2025, 1, 10⟩, ⟨4, by omega⟩⟩ =
      .error () ∧
    Date.ltb ⟨2026, 1, 5⟩ ⟨2025, 1, 10⟩ = false ∧
    (⟨2026, 1, 5⟩ : Date) = ⟨2025 + 1, 1, 5⟩ := by
  have h := c10_date_rollover ⟨⟨2025, 1, 10⟩, ⟨4, by omega⟩⟩ 1 5 ⟨2026, 1, 5⟩
  have h2 := h.2.1 rfl
  exact ⟨h.1, h2.1, h2.2 ⟨2025, 1, 5⟩ (by decide) (by decide)⟩

theorem csvEscape_of_no_quote {t : Text} (h : '"' ∉ t) : csvEscape t = t := by
  induction t with
  | nil => rfl
  | cons c cs ih =>
      unfold csvEscape
      rw [if_neg, ih]
      · exact fun hm => h (List.mem_cons_of_mem c hm)
      · intro hc
        exact h (hc ▸ List.mem_cons_self c cs)

theorem infix_of_mem_joinSep {sep x : Text} {L : List Text} (hx : x ∈ L) :
    x <:+: joinSep sep L := by
  induction L with
  | nil => exact absurd hx (List.not_mem_nil x)
  | cons a L ih =>
      cases L with
      | nil =>
          have : x = a := by
            rcases List.mem_cons.mp hx with h | h
            · exact h
            · exact absurd h (List.not_mem_nil x)
          rw [this]
          exact List.infix_refl a
      | cons b L' =>
          rcases List.mem_cons.mp hx with h | h
          · subst h
            exact ⟨[], sep ++ joinSep sep (b :: L'), by simp [joinSep]⟩
          · obtain ⟨s, t, ht⟩ := ih h
            exact ⟨a ++ sep ++ s, t, by simp [joinSep, ← ht]⟩

/-- C8: the id of a committed booking appears verbatim both in the generated
ICS calendar text and in the CSV report rendered for the appointment-date log
that the record was appended to.  (The id `save_booking` allocates is
`uuid.uuid4().hex[:12]`, hence quote-free, which the hypothesis records.) -/
theorem c8_roundtrip (freshId nowz : Text) (start : DT) (caller : Option Text)
    (name address : Option Text) (prior : List Rec)
    (hq : '"' ∉ freshId) :
    freshId <:+: bookingIcs freshId nowz start caller name address ∧
    freshId <:+:
      renderReportCsv (prior ++ [bookingRec freshId nowz start caller name address]) := by
  constructor
  · have h2 : (strL "UID:" ++ freshId) <:+:
        bookingIcs freshId nowz start caller name address := by
      unfold bookingIcs
      apply infix_of_mem_joinSep
      simp [makeIcs]
    exact List.IsInfix.trans ⟨strL "UID:", [], by simp⟩ h2
  · have hq1 : freshId <:+: csvQuote freshId :=
      ⟨['"'], ['"'], by simp [csvQuote, csvEscape_of_no_quote hq]⟩
    have hq2 : csvQuote freshId <:+:
        rowLine (bookingRec freshId nowz start caller name address) := by
      apply infix_of_mem_joinSep
      simp [rowLine, bookingRec]
    have hq3 : rowLine (bookingRec freshId nowz start caller name address) <:+:
        renderReportCsv
          (prior ++ [bookingRec freshId nowz start caller name address]) := by
      unfold renderReportCsv
      apply infix_of_mem_joinSep
      simp only [List.mem_cons]
      right
      exact List.mem_map_of_mem rowLine (by simp)
    exact (hq1.trans hq2).trans hq3

/-- C8 witness: a concrete booking id appears in both artifacts. -/
theorem c8_witness :
    strL "ab12cd34ef56" <:+:
      bookingIcs (strL "ab12cd34ef56") (strL "20251012T080000Z")
        ⟨⟨2025, 10, 16⟩, ⟨13, 0⟩⟩ (some (strL "+15551112222"))
        (some (strL "John Smith")) (some (strL "123 Main St")) ∧
    strL "ab12cd34ef56" <:+:
      renderReportCsv ([] ++ [bookingRec (strL "ab12cd34ef56")
        (strL "20251012T080000Z") ⟨⟨2025, 10, 16⟩, ⟨13, 0⟩⟩
        (some (strL "+15551112222")) (some (strL "John Smith"))
        (some (strL "123 Main St"))]) :=
  c8_roundtrip (strL "ab12cd34ef56") (strL "20251012T080000Z")
    ⟨⟨2025, 10, 16⟩, ⟨13, 0⟩⟩ (some (strL "+15551112222"))
    (some (strL "John Smith")) (some (strL "123 Main St")) [] (by decide)

/-! ### Controller lemmas -/

theorem captureBlock_pass {s : Session} {u : Utt} {s' : Session}
    (h : captureBlock s u = .pass s') : s' = s ∧ s.captureNext = .none := by
  unfold captureBlock at h
  try dsimp only at h
  repeat' split at h
  all_goals simp_all [BlockRes.ok, BlockRes.err]

theorem legacyBlock_pass {s : Session} {u : Utt} {s' : Session}
    (h : legacyBlock s u = .pass s') :
    s' = s ∧ s.need ≠ .address ∧ s.need ≠ .phone := by
  unfold legacyBlock at h
  try dsimp only at h
  repeat' split at h
  all_goals simp_all [BlockRes.ok, BlockRes.err]

theorem langBlock_pass {s : Session} {u : Utt} {s' : Session}
    (h : langBlock s u = .pass s') :
    (s.lang.isSome = true ∧ s' = s) ∨
    (s.lang = none ∧ s' = { s with lang := some .en }) := by
  unfold langBlock at h
  try dsimp only at h
  repeat' split at h
  all_goals simp_all [BlockRes.ok, BlockRes.err]

theorem clarifyBlock_pass {s : Session} {u : Utt} {s' : Session}
    (h : clarifyBlock s u = .pass s') : s' = s := by
  unfold clarifyBlock at h
  repeat' split at h
  all_goals simp_all [BlockRes.ok, BlockRes.err]

theorem optoutEntryBlock_pass {s : Session} {u : Utt} {s' : Session}
    (h : optoutEntryBlock s u = .pass s') : s' = s ∧ u.isOptOut = false := by
  unfold optoutEntryBlock at h
  try dsimp only at h
  repeat' split at h
  all_goals simp_all [BlockRes.ok, BlockRes.err]

theorem optoutModeBlock_pass {eff : Eff} {s : Session} {u : Utt} {s' : Session}
    (h : optoutModeBlock eff s u = .pass s') : s' = s := by
  unfold optoutModeBlock at h
  try dsimp only at h
  repeat' split at h
  all_goals simp_all [BlockRes.ok, BlockRes.err]

theorem bookingConfirmBlock_pass {eff : Eff} {s : Session} {u : Utt} {s' : Session}
    (h : bookingConfirmBlock eff s u = .pass s') :
    s' = s ∧ ¬(s.mode = .booking ∧ s.need = .confirm) := by
  unfold bookingConfirmBlock at h
  try dsimp only at h
  repeat' split at h
  all_goals simp_all [BlockRes.ok, BlockRes.err]

theorem bookingFill_pass {s : Session} {u : Utt} {s' : Session}
    (h : bookingFill s u = .pass s') :
    ∃ d t, s' = { s with holdDate := some d, holdTime := some t,
                         holdDT := some ⟨d, t⟩, need := .none } := by
  unfold bookingFill at h
  try dsimp only at h
  split at h
  · simp_all [BlockRes.ok, BlockRes.err]
  · simp_all [BlockRes.ok, BlockRes.err]
  · rename_i d t hd ht
    refine ⟨d, t, ?_⟩
    have := ((BlockRes.pass.injEq _ _).mp h).symm
    cases hpd : pickSlot u.pdate s.holdDate with
    | none => rw [hpd] at hd; exact absurd hd (by simp)
    | some d0 =>
        cases hpt : pickSlot u.ptime s.holdTime with
        | none => rw [hpt] at ht; exact absurd ht (by simp)
        | some t0 => simp_all

theorem bookingSlotBlock_pass {s : Session} {u : Utt} {s' : Session}
    (h : bookingSlotBlock s u = .pass s') :
    (s' = s ∧ ¬(s.mode = .booking ∧ (s.need = .date ∨ s.need = .time))) ∨
    (∃ d t, s' = { s with holdDate := some d, holdTime := some t,
                          holdDT := some ⟨d, t⟩, need := .none }) := by
  unfold bookingSlotBlock at h
  split at h
  · right
    exact bookingFill_pass h
  · left
    rename_i hng
    constructor
    · exact ((BlockRes.pass.injEq _ _).mp h).symm
    · simp only [Bool.and_eq_true, Bool.or_eq_true, decide_eq_true_eq] at hng
      tauto

theorem bookingEntryBlock_pass {s : Session} {u : Utt} {s' : Session}
    (h : bookingEntryBlock s u = .pass s') :
    s' = s ∨
    (s.mode = .none ∧ s.need = .none ∧
      ∃ d t, s' = { s with mode := .booking, holdDate := some d,
                           holdTime := some t, holdDT := some ⟨d, t⟩,
                           need := .none }) := by
  unfold bookingEntryBlock at h
  split at h
  · right
    rename_i hg
    simp only [Bool.and_eq_true, decide_eq_true_eq] at hg
    obtain ⟨d, t, hdt⟩ := bookingFill_pass h
    exact ⟨hg.1.1, hg.1.2, d, t, by rw [hdt]⟩
  · left
    exact ((BlockRes.pass.injEq _ _).mp h).symm

theorem hardGateBlock_pass {s s' : Session}
    (h : hardGateBlock s = .pass s') :
    s' = s ∧ s.mode ≠ .booking ∧ s.mode ≠ .optout := by
  unfold hardGateBlock at h
  try dsimp only at h
  repeat' split at h
  all_goals simp_all [BlockRes.ok, BlockRes.err]

theorem captureBlock_commits {s : Session} {u : Utt} {o : Outcome}
    (h : captureBlock s u = .done (.ok o)) : o.commits = [] := by
  unfold captureBlock at h
  try dsimp only at h
  repeat' split at h
  all_goals simp_all [BlockRes.ok, BlockRes.err]
  all_goals first
    | (rw [← h]; try simp_all)
    | (obtain ⟨h1, h2⟩ := h; rw [← h2]; try simp_all)

theorem legacyBlock_commits {s : Session} {u : Utt} {o : Outcome}
    (h : legacyBlock s u = .done (.ok o)) : o.commits = [] := by
  unfold legacyBlock at h
  try dsimp only at h
  repeat' split at h
  all_goals simp_all [BlockRes.ok, BlockRes.err]
  all_goals first
    | (rw [← h]; try simp_all)
    | (obtain ⟨h1, h2⟩ := h; rw [← h2]; try simp_all)

theorem langBlock_commits {s : Session} {u : Utt} {o : Outcome}
    (h : langBlock s u = .done (.ok o)) : o.commits = [] := by
  unfold langBlock at h
  try dsimp only at h
  repeat' split at h
  all_goals simp_all [BlockRes.ok, BlockRes.err]
  all_goals first
    | (rw [← h]; try simp_all)
    | (obtain ⟨h1, h2⟩ := h; rw [← h2]; try simp_all)

theorem clarifyBlock_commits {s : Session} {u : Utt} {o : Outcome}
    (h : clarifyBlock s u = .done (.ok o)) : o.commits = [] ∧ o.sess = s := by
  unfold clarifyBlock at h
  repeat' split at h
  all_goals simp_all [BlockRes.ok, BlockRes.err]
  all_goals first
    | (rw [← h]; try simp_all)
    | (obtain ⟨h1, h2⟩ := h; rw [← h2]; try simp_all)

theorem optoutEntryBlock_commits {s : Session} {u : Utt} {o : Outcome}
    (h : optoutEntryBlock s u = .done (.ok o)) : o.commits = [] := by
  unfold optoutEntryBlock at h
  try dsimp only at h
  repeat' split at h
  all_goals simp_all [BlockRes.ok, BlockRes.err]
  all_goals first
    | (rw [← h]; try simp_all)
    | (obtain ⟨h1, h2⟩ := h; rw [← h2]; try simp_all)

theorem optoutModeBlock_ok {eff : Eff} {s : Session} {u : Utt} {o : Outcome}
    (h : optoutModeBlock eff s u = .done (.ok o)) :
    o.commits = [] ∨
    (o.commits = [.optout] ∧ s.mode = .optout ∧ s.need = .confirm ∧
      u.isYes = true ∧ eff.optOk = true ∧ o.sess = resetCommit s) := by
  unfold optoutModeBlock at h
  try dsimp only at h
  repeat' split at h
  all_goals simp_all [BlockRes.ok, BlockRes.err]
  all_goals first
    | (rw [← h]; try simp_all)
    | (obtain ⟨h1, h2⟩ := h; rw [← h2]; try simp_all)

theorem bookingConfirmBlock_ok {eff : Eff} {s : Session} {u : Utt} {o : Outcome}
    (h : bookingConfirmBlock eff s u = .done (.ok o)) :
    o.commits = [] ∨
    (o.commits = [.booking] ∧ s.mode = .booking ∧ s.need = .confirm ∧
      u.isYes = true ∧ s.holdDT.isSome = true ∧ o.sess = resetCommit s) := by
  unfold bookingConfirmBlock at h
  try dsimp only at h
  repeat' split at h
  all_goals simp_all [BlockRes.ok, BlockRes.err]
  all_goals first
    | (rw [← h]; try simp_all)
    | (obtain ⟨h1, h2⟩ := h; rw [← h2]; try simp_all)

theorem bookingFill_commits {s : Session} {u : Utt} {o : Outcome}
    (h : bookingFill s u = .done (.ok o)) : o.commits = [] := by
  unfold bookingFill at h
  try dsimp only at h
  repeat' split at h
  all_goals simp_all [BlockRes.ok, BlockRes.err]
  all_goals first
    | (rw [← h]; try simp_all)
    | (obtain ⟨h1, h2⟩ := h; rw [← h2]; try simp_all)

theorem bookingSlotBlock_commits {s : Session} {u : Utt} {o : Outcome}
    (h : bookingSlotBlock s u = .done (.ok o)) : o.commits = [] := by
  unfold bookingSlotBlock at h
  split at h
  · exact bookingFill_commits h
  · simp_all

theorem bookingEntryBlock_commits {s : Session} {u : Utt} {o : Outcome}
    (h : bookingEntryBlock s u = .done (.ok o)) : o.commits = [] := by
  unfold bookingEntryBlock at h
  split at h
  · exact bookingFill_commits h
  · simp_all

theorem hardGateBlock_commits {s : Session} {o : Outcome}
    (h : hardGateBlock s = .done (.ok o)) : o.commits = [] := by
  unfold hardGateBlock at h
  try dsimp only at h
  repeat' split at h
  all_goals simp_all [BlockRes.ok, BlockRes.err]
  all_goals first
    | (rw [← h]; try simp_all)
    | (obtain ⟨h1, h2⟩ := h; rw [← h2]; try simp_all)

theorem pickSlot_isSome {α : Type} (x : Option α) {y : Option α}
    (hy : y.isSome = true) : (pickSlot x y).isSome = true := by
  cases x <;> simp [pickSlot, hy]

theorem pickSlot_eq_none {α : Type} {x y : Option α}
    (h : pickSlot x y = none) : y = none := by
  cases x with
  | none => exact h
  | some v => exact absurd h (by simp [pickSlot])

theorem captureBlock_inv {s : Session} {u : Utt} {o : Outcome}
    (hI : Inv s) (h : captureBlock s u = .done (.ok o)) : Inv o.sess := by
  obtain ⟨i1, i2, i3, i4, i5, i6, i7, i8, i8a, i8b, i9, i10⟩ := hI
  have hdtCap : s.captureNext = .name → s.mode = .booking →
      s.holdDT.isSome = true := by
    intro hc hm
    have hn := i8 hc
    rcases i7 hm with hx | hx | hx
    · rw [hn] at hx; simp at hx
    · rw [hn] at hx; simp at hx
    · exact hx
  have hdtCapAddr : s.captureNext = .address → s.mode = .booking →
      s.holdDT.isSome = true := by
    intro hc hm
    have hn := i8a hc
    rcases i7 hm with hx | hx | hx
    · rw [hn] at hx; simp at hx
    · rw [hn] at hx; simp at hx
    · exact hx
  have hdtCapPhone : s.captureNext = .phone → s.mode = .booking →
      s.holdDT.isSome = true := by
    intro hc hm
    have hn := i8b hc
    rcases i7 hm with hx | hx | hx
    · rw [hn] at hx; simp at hx
    · rw [hn] at hx; simp at hx
    · exact hx
  unfold captureBlock at h
  try dsimp only at h
  repeat' split at h
  all_goals simp_all [BlockRes.ok, BlockRes.err]
  all_goals
    (rw [← h]
     constructor <;> (try simp_all [Option.isSome_iff_ne_none,
       Option.isNone_iff_eq_none, not_and_or]) <;> (try tauto))

theorem legacyBlock_inv {s : Session} {u : Utt} {o : Outcome}
    (hI : Inv s) (hc : s.captureNext = .none)
    (h : legacyBlock s u = .done (.ok o)) : Inv o.sess := by
  obtain ⟨i1, i2, i3, i4, i5, i6, i7, i8, i8a, i8b, i9, i10⟩ := hI
  unfold legacyBlock at h
  try dsimp only at h
  repeat' split at h
  all_goals simp_all [BlockRes.ok, BlockRes.err]
  all_goals
    (rw [← h]
     constructor <;> (try simp_all [Option.isSome_iff_ne_none,
       Option.isNone_iff_eq_none, not_and_or]) <;> (try tauto))

theorem langBlock_inv {s : Session} {u : Utt} {o : Outcome}
    (hI : Inv s) (h : langBlock s u = .done (.ok o)) : Inv o.sess := by
  obtain ⟨i1, i2, i3, i4, i5, i6, i7, i8, i8a, i8b, i9, i10⟩ := hI
  unfold langBlock at h
  try dsimp only at h
  repeat' split at h
  all_goals simp_all [BlockRes.ok, BlockRes.err]
  all_goals
    (rw [← h]
     constructor <;> (try simp_all [Option.isSome_iff_ne_none,
       Option.isNone_iff_eq_none, not_and_or]) <;> (try tauto))

theorem optoutEntryBlock_inv {s : Session} {u : Utt} {o : Outcome}
    (hI : Inv s) (hlang : s.lang.isSome = true) (hc : s.captureNext = .none)
    (h : optoutEntryBlock s u = .done (.ok o)) : Inv o.sess := by
  obtain ⟨i1, i2, i3, i4, i5, i6, i7, i8, i8a, i8b, i9, i10⟩ := hI
  unfold optoutEntryBlock at h
  try dsimp only at h
  repeat' split at h
  all_goals simp_all [BlockRes.ok, BlockRes.err]
  all_goals
    (rw [← h]
     constructor <;> (try simp_all [Option.isSome_iff_ne_none,
       Option.isNone_iff_eq_none, not_and_or]) <;> (try tauto))

theorem optoutModeBlock_inv {eff : Eff} {s : Session} {u : Utt} {o : Outcome}
    (hI : Inv s) (hlang : s.lang.isSome = true) (hc : s.captureNext = .none)
    (h : optoutModeBlock eff s u = .done (.ok o)) : Inv o.sess := by
  obtain ⟨i1, i2, i3, i4, i5, i6, i7, i8, i8a, i8b, i9, i10⟩ := hI
  unfold optoutModeBlock at h
  try dsimp only at h
  repeat' split at h
  all_goals simp_all [BlockRes.ok, BlockRes.err]
  all_goals
    (rw [← h]
     constructor <;> (try simp_all [resetCommit, Option.isSome_iff_ne_none,
       Option.isNone_iff_eq_none, not_and_or]) <;> (try tauto))

theorem bookingConfirmBlock_inv {eff : Eff} {s : Session} {u : Utt} {o : Outcome}
    (hI : Inv s) (hlang : s.lang.isSome = true) (hc : s.captureNext = .none)
    (h : bookingConfirmBlock eff s u = .done (.ok o)) : Inv o.sess := by
  obtain ⟨i1, i2, i3, i4, i5, i6, i7, i8, i8a, i8b, i9, i10⟩ := hI
  unfold bookingConfirmBlock at h
  try dsimp only at h
  repeat' split at h
  all_goals simp_all [BlockRes.ok, BlockRes.err]
  all_goals
    (rw [← h]
     constructor <;> (try simp_all [resetCommit, Option.isSome_iff_ne_none,
       Option.isNone_iff_eq_none, not_and_or]) <;> (try tauto))

theorem bookingFill_inv {s : Session} {u : Utt} {o : Outcome}
    (hlang : s.lang.isSome = true) (hc : s.captureNext = .none)
    (hm : s.mode = .booking)
    (h9 : s.holdDT.isSome = true → s.holdDate.isSome = true ∧ s.holdTime.isSome = true)
    (h : bookingFill s u = .done (.ok o)) : Inv o.sess := by
  have hdt_none : s.holdDate = none ∨ s.holdTime = none → s.holdDT = none := by
    intro hd
    cases hdt0 : s.holdDT with
    | none => rfl
    | some v =>
        have h2 := h9 (by rw [hdt0]; rfl)
        rcases hd with hd | hd <;> rw [hd] at h2 <;> simp at h2
  unfold bookingFill at h
  try dsimp only at h
  split at h
  · rename_i hd
    have hn := hdt_none (.inl (pickSlot_eq_none hd))
    simp only [BlockRes.ok, BlockRes.done.injEq, Except.ok.injEq] at h
    rw [← h]
    constructor <;> simp_all [Option.isSome_iff_ne_none, Option.isNone_iff_eq_none]
  · rename_i hd ht
    have hn := hdt_none (.inr (pickSlot_eq_none ht))
    simp only [BlockRes.ok, BlockRes.done.injEq, Except.ok.injEq] at h
    rw [← h]
    constructor <;> simp_all [Option.isSome_iff_ne_none, Option.isNone_iff_eq_none]
  · exact absurd h (by simp)

theorem bookingSlotBlock_inv {s : Session} {u : Utt} {o : Outcome}
    (hI : Inv s) (hlang : s.lang.isSome = true) (hc : s.captureNext = .none)
    (h : bookingSlotBlock s u = .done (.ok o)) : Inv o.sess := by
  unfold bookingSlotBlock at h
  split at h
  · rename_i hg
    simp only [Bool.and_eq_true, decide_eq_true_eq] at hg
    exact bookingFill_inv hlang hc hg.1 hI.dtParts h
  · simp_all

theorem bookingEntryBlock_inv {s : Session} {u : Utt} {o : Outcome}
    (hI : Inv s) (hlang : s.lang.isSome = true) (hc : s.captureNext = .none)
    (h : bookingEntryBlock s u = .done (.ok o)) : Inv o.sess := by
  unfold bookingEntryBlock at h
  split at h
  · rename_i hg
    simp only [Bool.and_eq_true, decide_eq_true_eq] at hg
    exact @bookingFill_inv { s with mode := .booking } u o hlang hc rfl
      hI.dtParts h
  · simp_all

theorem hardGateBlock_inv {s : Session} {o : Outcome}
    (hI : Inv s) (hlang : s.lang.isSome = true) (hc : s.captureNext = .none)
    (hnd : s.mode = .booking → s.need ≠ .date ∧ s.need ≠ .time)
    (h : hardGateBlock s = .done (.ok o)) : Inv o.sess := by
  obtain ⟨i1, i2, i3, i4, i5, i6, i7, i8, i8a, i8b, i9, i10⟩ := hI
  have hdt : s.mode = .booking → s.holdDT.isSome = true := by
    intro hm
    rcases i7 hm with hx | hx | hx
    · exact absurd hx (hnd hm).1
    · exact absurd hx (hnd hm).2
    · exact hx
  unfold hardGateBlock at h
  try dsimp only at h
  repeat' split at h
  all_goals simp_all [BlockRes.ok, BlockRes.err]
  all_goals
    (rw [← h]
     constructor <;> (try simp_all [Option.isSome_iff_ne_none,
       Option.isNone_iff_eq_none, not_and_or]) <;> (try tauto))

theorem Inv_setLang {s : Session} (hI : Inv s) (l : Lang) :
    Inv { s with lang := some l } := by
  obtain ⟨i1, i2, i3, i4, i5, i6, i7, i8, i8a, i8b, i9, i10⟩ := hI
  constructor <;> simp_all

theorem Inv_lastReply {s : Session} (hI : Inv s) (r : Option Reply) :
    Inv { s with lastReply := r } := by
  obtain ⟨i1, i2, i3, i4, i5, i6, i7, i8, i8a, i8b, i9, i10⟩ := hI
  constructor <;> simp_all

theorem Inv_fill {s : Session} (hI : Inv s) (hcap : s.captureNext = .none)
    (d : Date) (t : Time) :
    Inv { s with holdDate := some d, holdTime := some t,
                 holdDT := some ⟨d, t⟩, need := .none } := by
  obtain ⟨i1, i2, i3, i4, i5, i6, i7, i8, i8a, i8b, i9, i10⟩ := hI
  constructor <;> (try simp_all) <;> (try tauto)

theorem Inv_fillBooking {s : Session} (hI : Inv s)
    (hlang : s.lang.isSome = true) (hcap : s.captureNext = .none)
    (d : Date) (t : Time) :
    Inv { s with mode := .booking, holdDate := some d, holdTime := some t,
                 holdDT := some ⟨d, t⟩, need := .none } := by
  obtain ⟨i1, i2, i3, i4, i5, i6, i7, i8, i8a, i8b, i9, i10⟩ := hI
  constructor <;> (try simp_all) <;> (try tauto)

theorem stepGate_inv {eff : Eff} {u : Utt} {s : Session} {o : Outcome}
    (hI : Inv s) (hlang : s.lang.isSome = true) (hcap : s.captureNext = .none)
    (hnd : s.mode = .booking → s.need ≠ .date ∧ s.need ≠ .time)
    (h : stepGate eff s u = .ok o) : Inv o.sess := by
  unfold stepGate chain at h
  split at h
  · rename_i e heq
    cases e with
    | error p => exact absurd h (by simp)
    | ok o1 =>
        injection h with h
        rw [← h]
        exact bookingEntryBlock_inv hI hlang hcap heq
  · rename_i s1 heq1
    rcases bookingEntryBlock_pass heq1 with hs1 | ⟨hm0, hn0, d, t, hs1⟩
    · subst hs1
      try dsimp only at h
      split at h
      · rename_i e heq
        cases e with
        | error p => exact absurd h (by simp)
        | ok o1 =>
            injection h with h
            rw [← h]
            exact hardGateBlock_inv hI hlang hcap hnd heq
      · rename_i s2 heq2
        obtain ⟨hs2, _, _⟩ := hardGateBlock_pass heq2
        subst hs2
        injection h with h
        rw [← h]
        exact hI
    · subst hs1
      have hI1 := Inv_fillBooking hI hlang hcap d t
      try dsimp only at h
      split at h
      · rename_i e heq
        cases e with
        | error p => exact absurd h (by simp)
        | ok o1 =>
            injection h with h
            rw [← h]
            exact hardGateBlock_inv hI1 (by simpa using hlang) (by simpa using hcap)
              (by intro _; exact ⟨by simp, by simp⟩) heq
      · rename_i s2 heq2
        obtain ⟨hs2, _, _⟩ := hardGateBlock_pass heq2
        subst hs2
        injection h with h
        rw [← h]
        exact hI1

theorem stepSlots_inv {eff : Eff} {u : Utt} {s : Session} {o : Outcome}
    (hI : Inv s) (hlang : s.lang.isSome = true) (hcap : s.captureNext = .none)
    (h : stepSlots eff s u = .ok o) : Inv o.sess := by
  unfold stepSlots chain at h
  split at h
  · rename_i e heq
    cases e with
    | error p => exact absurd h (by simp)
    | ok o1 =>
        injection h with h
        rw [← h]
        exact bookingSlotBlock_inv hI hlang hcap heq
  · rename_i s1 heq1
    rcases bookingSlotBlock_pass heq1 with ⟨hs1, hnd1⟩ | ⟨d, t, hs1⟩
    · subst hs1
      refine stepGate_inv hI hlang hcap ?_ h
      intro hm
      constructor <;> (intro hx; exact hnd1 ⟨hm, by tauto⟩)
    · subst hs1
      have hI1 := Inv_fill hI hcap d t
      refine stepGate_inv hI1 (by simpa using hlang) (by simpa using hcap) ?_ h
      intro _
      exact ⟨by simp, by simp⟩

theorem stepPost_inv {eff : Eff} {u : Utt} {s : Session} {o : Outcome}
    (hI : Inv s) (hlang : s.lang.isSome = true) (hcap : s.captureNext = .none)
    (h : stepPost eff s u = .ok o) : Inv o.sess := by
  unfold stepPost chain at h
  split at h
  · rename_i e heq
    cases e with
    | error p => exact absurd h (by simp)
    | ok o1 =>
        injection h with h
        rw [← h, (clarifyBlock_commits heq).2]
        exact hI
  · rename_i s1 heq1
    have hs1 := clarifyBlock_pass heq1
    subst hs1
    try dsimp only at h
    split at h
    · rename_i e heq
      cases e with
      | error p => exact absurd h (by simp)
      | ok o1 =>
          injection h with h
          rw [← h]
          exact optoutEntryBlock_inv hI hlang hcap heq
    · rename_i s2 heq2
      obtain ⟨hs2, _⟩ := optoutEntryBlock_pass heq2
      subst hs2
      try dsimp only at h
      split at h
      · rename_i e heq
        cases e with
        | error p => exact absurd h (by simp)
        | ok o1 =>
            injection h with h
            rw [← h]
            exact optoutModeBlock_inv hI hlang hcap heq
      · rename_i s3 heq3
        have hs3 := optoutModeBlock_pass heq3
        subst hs3
        try dsimp only at h
        split at h
        · rename_i e heq
          cases e with
          | error p => exact absurd h (by simp)
          | ok o1 =>
              injection h with h
              rw [← h]
              exact bookingConfirmBlock_inv hI hlang hcap heq
        · rename_i s4 heq4
          obtain ⟨hs4, _⟩ := bookingConfirmBlock_pass heq4
          subst hs4
          try dsimp only at h
          exact stepSlots_inv hI hlang hcap h

theorem stepCore_inv {eff : Eff} {s : Session} {u : Utt} {o : Outcome}
    (hI : Inv s) (h : stepCore eff s u = .ok o) : Inv o.sess := by
  unfold stepCore chain at h
  split at h
  · injection h with h
    rw [← h]
    exact hI
  · split at h
    · rename_i e heq
      cases e with
      | error p => exact absurd h (by simp)
      | ok o1 =>
          injection h with h
          rw [← h]
          exact captureBlock_inv hI heq
    · rename_i s1 heq1
      obtain ⟨hs1, hcap⟩ := captureBlock_pass heq1
      subst hs1
      try dsimp only at h
      split at h
      · rename_i e heq
        cases e with
        | error p => exact absurd h (by simp)
        | ok o1 =>
            injection h with h
            rw [← h]
            exact legacyBlock_inv hI hcap heq
      · rename_i s2 heq2
        obtain ⟨hs2, _, _⟩ := legacyBlock_pass heq2
        subst hs2
        try dsimp only at h
        split at h
        · rename_i e heq
          cases e with
          | error p => exact absurd h (by simp)
          | ok o1 =>
              injection h with h
              rw [← h]
              exact langBlock_inv hI heq
        · rename_i s3 heq3
          rcases langBlock_pass heq3 with ⟨hlang0, hs3⟩ | ⟨hnone, hs3⟩
          · subst hs3
            try dsimp only at h
            exact stepPost_inv hI hlang0 hcap h
          · subst hs3
            try dsimp only at h
            exact stepPost_inv (Inv_setLang hI .en) (by simp) (by simpa using hcap) h

theorem step_inv {eff : Eff} {s : Session} {u : Utt} {o : Outcome}
    (hI : Inv s) (h : step eff s u = .ok o) : Inv o.sess := by
  unfold step at h
  split at h
  · exact absurd h (by simp)
  · rename_i o1 ho1
    injection h with h
    rw [← h]
    exact Inv_lastReply (stepCore_inv hI ho1) _

theorem interrupt_inv {s : Session} (hI : Inv s) : Inv (stepInterrupt s) := by
  obtain ⟨i1, i2, i3, i4, i5, i6, i7, i8, i8a, i8b, i9, i10⟩ := hI
  unfold stepInterrupt
  split
  · constructor <;> simp_all
  · constructor <;> simp_all

theorem init_inv (c : Option String) : Inv (initSession c) := by
  constructor <;> simp [initSession]

/-- Every reachable session satisfies the controller invariant. -/
theorem reachable_inv {s : Session} (hr : Reachable s) : Inv s := by
  induction hr with
  | init c => exact init_inv c
  | prompt hr hstep ih => exact step_inv ih hstep
  | intr hr ih => exact interrupt_inv ih

theorem stepGate_commits {eff : Eff} {u : Utt} {s : Session} {o : Outcome}
    (h : stepGate eff s u = .ok o) : o.commits = [] := by
  unfold stepGate chain at h
  split at h
  · rename_i e heq
    cases e with
    | error p => exact absurd h (by simp)
    | ok o1 =>
        injection h with h
        rw [← h]
        exact bookingEntryBlock_commits heq
  · rename_i s1 heq1
    try dsimp only at h
    split at h
    · rename_i e heq
      cases e with
      | error p => exact absurd h (by simp)
      | ok o1 =>
          injection h with h
          rw [← h]
          exact hardGateBlock_commits heq
    · rename_i s2 heq2
      try dsimp only at h
      unfold llmBlock at h
      injection h with h
      rw [← h]

theorem stepSlots_commits {eff : Eff} {u : Utt} {s : Session} {o : Outcome}
    (h : stepSlots eff s u = .ok o) : o.commits = [] := by
  unfold stepSlots chain at h
  split at h
  · rename_i e heq
    cases e with
    | error p => exact absurd h (by simp)
    | ok o1 =>
        injection h with h
        rw [← h]
        exact bookingSlotBlock_commits heq
  · rename_i s1 heq1
    try dsimp only at h
    exact stepGate_commits h

theorem stepPost_commit {eff : Eff} {u : Utt} {s : Session} {o : Outcome}
    (h : stepPost eff s u = .ok o) (hne : o.commits ≠ []) :
    u.isYes = true ∧ s.need = .confirm ∧ o.sess = resetCommit s ∧
    ((o.commits = [.optout] ∧ s.mode = .optout) ∨
     (o.commits = [.booking] ∧ s.mode = .booking ∧ s.holdDT.isSome = true)) := by
  unfold stepPost chain at h
  split at h
  · rename_i e heq
    cases e with
    | error p => exact absurd h (by simp)
    | ok o1 =>
        injection h with h
        rw [← h] at hne
        exact absurd (clarifyBlock_commits heq).1 hne
  · rename_i s1 heq1
    have hs1 := clarifyBlock_pass heq1
    subst hs1
    try dsimp only at h
    split at h
    · rename_i e heq
      cases e with
      | error p => exact absurd h (by simp)
      | ok o1 =>
          injection h with h
          rw [← h] at hne
          exact absurd (optoutEntryBlock_commits heq) hne
    · rename_i s2 heq2
      obtain ⟨hs2, _⟩ := optoutEntryBlock_pass heq2
      subst hs2
      try dsimp only at h
      split at h
      · rename_i e heq
        cases e with
        | error p => exact absurd h (by simp)
        | ok o1 =>
            injection h with h
            subst h
            rcases optoutModeBlock_ok heq with hc0 | ⟨hc1, hm, hn, hy, _, hsess⟩
            · exact absurd hc0 hne
            · exact ⟨hy, hn, hsess, .inl ⟨hc1, hm⟩⟩
      · rename_i s3 heq3
        have hs3 := optoutModeBlock_pass heq3
        subst hs3
        try dsimp only at h
        split at h
        · rename_i e heq
          cases e with
          | error p => exact absurd h (by simp)
          | ok o1 =>
              injection h with h
              subst h
              rcases bookingConfirmBlock_ok heq with hc0 | ⟨hc1, hm, hn, hy, hdt, hsess⟩
              · exact absurd hc0 hne
              · exact ⟨hy, hn, hsess, .inr ⟨hc1, hm, hdt⟩⟩
        · rename_i s4 heq4
          obtain ⟨hs4, _⟩ := bookingConfirmBlock_pass heq4
          subst hs4
          try dsimp only at h
          exact absurd (stepSlots_commits h) hne

theorem stepCore_commit {eff : Eff} {s : Session} {u : Utt} {o : Outcome}
    (h : stepCore eff s u = .ok o) (hne : o.commits ≠ []) :
    (o.sess.mode = .none ∧ o.sess.need = .none ∧ o.sess.holdDate = none ∧
      o.sess.holdTime = none ∧ o.sess.holdDT = none ∧ o.sess.holdName = none ∧
      o.sess.holdAddress = none ∧ o.sess.holdPhone = none) ∧
    o.sess.caller = s.caller ∧
    (o.sess.lang = s.lang ∨ (s.lang = none ∧ o.sess.lang = some .en)) ∧
    u.isYes = true ∧ s.need = .confirm ∧
    ((o.commits = [.optout] ∧ s.mode = .optout) ∨
     (o.commits = [.booking] ∧ s.mode = .booking ∧ s.holdDT.isSome = true)) := by
  unfold stepCore chain at h
  split at h
  · injection h with h
    rw [← h] at hne
    simp at hne
  · split at h
    · rename_i e heq
      cases e with
      | error p => exact absurd h (by simp)
      | ok o1 =>
          injection h with h
          rw [← h] at hne
          exact absurd (captureBlock_commits heq) hne
    · rename_i s1 heq1
      obtain ⟨hs1, hcap⟩ := captureBlock_pass heq1
      subst hs1
      try dsimp only at h
      split at h
      · rename_i e heq
        cases e with
        | error p => exact absurd h (by simp)
        | ok o1 =>
            injection h with h
            rw [← h] at hne
            exact absurd (legacyBlock_commits heq) hne
      · rename_i s2 heq2
        obtain ⟨hs2, _, _⟩ := legacyBlock_pass heq2
        subst hs2
        try dsimp only at h
        split at h
        · rename_i e heq
          cases e with
          | error p => exact absurd h (by simp)
          | ok o1 =>
              injection h with h
              rw [← h] at hne
              exact absurd (langBlock_commits heq) hne
        · rename_i s3 heq3
          rcases langBlock_pass heq3 with ⟨hlang0, hs3⟩ | ⟨hnone, hs3⟩
          · subst hs3
            try dsimp only at h
            obtain ⟨hy, hn, hsess, hdisj⟩ := stepPost_commit h hne
            rw [hsess]
            refine ⟨⟨rfl, rfl, rfl, rfl, rfl, rfl, rfl, rfl⟩, rfl, .inl rfl, hy, hn, hdisj⟩
          · subst hs3
            try dsimp only at h
            obtain ⟨hy, hn, hsess, hdisj⟩ := stepPost_commit h hne
            rw [hsess]
            refine ⟨⟨rfl, rfl, rfl, rfl, rfl, rfl, rfl, rfl⟩, rfl, .inr ⟨hnone, rfl⟩,
              hy, hn, ?_⟩
            simpa using hdisj

theorem step_commit {eff : Eff} {s : Session} {u : Utt} {o : Outcome}
    (h : step eff s u = .ok o) (hne : o.commits ≠ []) :
    (o.sess.mode = .none ∧ o.sess.need = .none ∧ o.sess.holdDate = none ∧
      o.sess.holdTime = none ∧ o.sess.holdDT = none ∧ o.sess.holdName = none ∧
      o.sess.holdAddress = none ∧ o.sess.holdPhone = none) ∧
    o.sess.caller = s.caller ∧
    (o.sess.lang = s.lang ∨ (s.lang = none ∧ o.sess.lang = some .en)) ∧
    u.isYes = true ∧ s.need = .confirm ∧
    ((o.commits = [.optout] ∧ s.mode = .optout) ∨
     (o.commits = [.booking] ∧ s.mode = .booking ∧ s.holdDT.isSome = true)) := by
  unfold step at h
  split at h
  · exact absurd h (by simp)
  · rename_i o1 ho1
    injection h with h
    have hc : o.commits = o1.commits := by rw [← h]
    have := stepCore_commit ho1 (by rw [← hc]; exact hne)
    rw [← h]
    exact this

theorem sA1_step : step effAll sA0 uEn = .ok ⟨sA1, [.langSetEn, .greetingEn], []⟩ := rfl

theorem sA2_step : step effAll sA1 uThu = .ok ⟨sA2, [.askName], []⟩ := rfl

theorem sA3_step : step effAll sA2 uJohnSmith = .ok ⟨sA3, [.askAddress], []⟩ := rfl

theorem sA4_step : step effAll sA3 uAddr = .ok ⟨sA4, [.confirmBooking], []⟩ := rfl

theorem sA5_step : step effAll sA4 uYes = .ok ⟨sA5, [.booked], [.booking]⟩ := rfl

theorem sA3_reachable : Reachable sA3 :=
  .prompt (.prompt (.prompt (.init (some "+15551112222")) sA1_step) sA2_step)
    sA3_step

theorem sA4_reachable : Reachable sA4 :=
  .prompt sA3_reachable sA4_step

/-- C1: in every reachable session, a turn that writes a booking record has
date+time (the combined `hold_dt`), name, address and phone-or-caller-id all
held, and the anti-loop disjunction holds — here via its third arm, since a
fully-specified date+time is always held at the commit; in particular a bare
affirmative with no held date+time can never produce a booking commit. -/
theorem c1_booking_commit_guard {eff : Eff} {s : Session} {u : Utt} {o : Outcome}
    (hr : Reachable s) (hstep : step eff s u = .ok o)
    (hb : Commit.booking ∈ o.commits) :
    s.holdDate.isSome = true ∧ s.holdTime.isSome = true ∧
    s.holdDT.isSome = true ∧ s.holdName.isSome = true ∧
    s.holdAddress.isSome = true ∧
    (s.holdPhone.isSome = true ∨ s.caller.isSome = true) ∧
    (isSchedOffer s.lastReply = true ∨ u.sched = true ∨ s.holdDT.isSome = true) := by
  have hI := reachable_inv hr
  have hc := step_commit hstep (by
    intro hc0
    rw [hc0] at hb
    exact absurd hb (by simp))
  obtain ⟨_, _, _, hy, hn, hdisj⟩ := hc
  rcases hdisj with ⟨hc1, hm⟩ | ⟨hc1, hm, hdt⟩
  · rw [hc1] at hb
    exact absurd hb (by simp)
  · exact ⟨(hI.dtParts hdt).1, (hI.dtParts hdt).2, hdt,
      hI.nameOfNeed (.inr (.inr hn)), (hI.confirmSlots hn).1,
      (hI.confirmSlots hn).2, .inr (.inr hdt)⟩

/-- C1 witness: the booking commit of the scenario-A trace satisfies every
conjunct of the guard. -/
theorem c1_witness :
    sA4.holdDate.isSome = true ∧ sA4.holdTime.isSome = true ∧
    sA4.holdDT.isSome = true ∧ sA4.holdName.isSome = true ∧
    sA4.holdAddress.isSome = true ∧
    (sA4.holdPhone.isSome = true ∨ sA4.caller.isSome = true) ∧
    (isSchedOffer sA4.lastReply = true ∨ uYes.sched = true ∨
      sA4.holdDT.isSome = true) :=
  c1_booking_commit_guard sA4_reachable sA5_step (by decide)

/-- C3 counterexample: `sA3` is reachable mid-booking with the address slot
pending; an utterance failing address validation re-prompts for the address
and returns exactly the same session, so the third (and every further) failed
attempt is re-prompted identically — there is no bound of 2 re-prompts, the
mode is never abandoned, and the session never returns to the QNA resting
phase. -/
theorem c3_counterexample :
    Reachable sA3 ∧
    step effAll sA3 uBlah = .ok ⟨sA3, [.askAddress], []⟩ ∧
    sA3.mode = Mode.booking ∧ sA3.need = Need.address :=
  ⟨sA3_reachable, rfl, rfl, rfl⟩

/-- C3 (amended): the controller has no per-slot retry bound: every turn that
fails address validation while the address slot is pending re-prompts for the
address and leaves the session unchanged (up to last-reply bookkeeping) — the
active mode and every held value are preserved and the mode is never
abandoned, however many times this repeats. -/
theorem c3_unbounded_reprompt {eff : Eff} {s : Session} {u : Utt} (l : Lang)
    (hempty : u.empty = false) (hcap : s.captureNext = .none)
    (hneed : s.need = .address) (haddr : u.addrOk = false)
    (hlang : s.lang = some l) :
    step eff s u = .ok ⟨{ s with lastReply := some .askAddress },
      [.askAddress], []⟩ := by
  unfold step stepCore chain captureBlock legacyBlock
  simp [hempty, hcap, hneed, haddr, hlang, BlockRes.ok]

/-- C3 witness: the amended statement evaluated at the concrete failing
attempt. -/
theorem c3_witness :
    step effAll sA3 uBlah = .ok ⟨{ sA3 with lastReply := some .askAddress },
      [.askAddress], []⟩ :=
  c3_unbounded_reprompt .en rfl rfl rfl rfl rfl

/-- C9: any turn of a reachable session that writes a record (booking or
opt-out, confirmed with an affirmative) leaves the successor session with
mode, pending need and all six held slot values (date, time, datetime, name,
address, phone) reset to `None`, while the chosen language and the caller id
are unchanged. -/
theorem c9_commit_resets {eff : Eff} {s : Session} {u : Utt} {o : Outcome}
    (hr : Reachable s) (hstep : step eff s u = .ok o) (hne : o.commits ≠ []) :
    o.sess.mode = .none ∧ o.sess.need = .none ∧
    o.sess.holdDate = none ∧ o.sess.holdTime = none ∧ o.sess.holdDT = none ∧
    o.sess.holdName = none ∧ o.sess.holdAddress = none ∧
    o.sess.holdPhone = none ∧
    o.sess.lang = s.lang ∧ o.sess.caller = s.caller := by
  have hI := reachable_inv hr
  obtain ⟨hres, hcaller, hlang, hy, hn, hdisj⟩ := step_commit hstep hne
  refine ⟨hres.1, hres.2.1, hres.2.2.1, hres.2.2.2.1, hres.2.2.2.2.1,
    hres.2.2.2.2.2.1, hres.2.2.2.2.2.2.1, hres.2.2.2.2.2.2.2, ?_, hcaller⟩
  rcases hlang with hl | ⟨hl0, _⟩
  · exact hl
  · exfalso
    have hmode : s.mode ≠ .none := by
      rcases hdisj with ⟨_, hm⟩ | ⟨_, hm, _⟩ <;> rw [hm] <;> simp
    have hsome := hI.langSet (.inr (.inr hmode))
    rw [hl0] at hsome
    simp at hsome

/-- C9 witness: the scenario-A commit turn resets everything and keeps the
language and the caller id. -/
theorem c9_witness :
    sA5.mode = Mode.none ∧ sA5.need = Need.none ∧
    sA5.holdDate = none ∧ sA5.holdTime = none ∧ sA5.holdDT = none ∧
    sA5.holdName = none ∧ sA5.holdAddress = none ∧ sA5.holdPhone = none ∧
    sA5.lang = sA4.lang ∧ sA5.caller = sA4.caller :=
  c9_commit_resets sA4_reachable sA5_step (by decide)

end TwilioAgent
